import Mathlib

/-!
Verification of the jsin schematic-tree inference core.

The definitions below are a shallow embedding of `src/jsin/schematic_tree_nodes.py`,
`src/jsin/infer.py` and `src/jsin/jsin_error.py`:

* `Node` embeds the schematic tree nodes.  A Python `Counter[str]` with positive
  counts is embedded as a `Multiset String` (Counter equality ignores order and
  compares counts, matching multiset equality); a Python `set[str]` as a
  `Finset String`; an `ObjectNode.fields` dict as an association list
  `List (String × Node × Bool × Bool)` (Python dict equality ignores insertion
  order, so general theorems take a canonically sorted list).
* `merge a b` embeds the Python expression `a + b` under Python's binary-operator
  dispatch: `T.__add__(a, b)` first, then `U.__radd__(b, a)` when the former is
  `NotImplemented`; `none` means the addition raises (`TypeError` from dispatch,
  or the exception escaping `KeyIndexedArrayNode.__add__`, whose
  `except NotImplementedError():` clause can never catch: the element-merge
  failure inside the `try:` is a `TypeError`, and evaluating the except clause's
  instance expression itself raises, so the exception always propagates).
* `infer` embeds `infer.py`'s recursive builder, with `Except InferError` for the
  raised `JsinError`s; `Json` embeds a decoded JSON value (a number keeps only
  its `isinstance(obj, float)` flag, the only thing `infer` reads from it).
-/

set_option maxHeartbeats 1000000

namespace Jsin

/-- The node-kind enum `SchematicTreeNodeType` of `schematic_tree_nodes.py`. -/
inductive SchematicTreeNodeType where
  | ANY
  | NULL
  | BOOLEAN
  | NUMBER
  | STRING
  | OBJECT
  | ARRAY
  | KEY_INDEXED_ARRAY
deriving DecidableEq

/-- Schematic tree nodes (`schematic_tree_nodes.py`).  `object` carries the
`fields` dict as an association list of `(field_name, (node, optional, nullable))`;
`keyIndexedArray` carries `keys : set[str]` and `value_node`. -/
inductive Node where
  | any : Node
  | null : Node
  | boolean : Node
  | number (containsFloat : Bool) : Node
  | string (counter : Multiset String) : Node
  | object (fields : List (String × Node × Bool × Bool)) : Node
  | array (valueNode : Node) : Node
  | keyIndexedArray (keys : Finset String) (valueNode : Node) : Node

/-- One entry of `ObjectNode.fields`: `(field_name, (node, optional, nullable))`. -/
abbrev Field := String × Node × Bool × Bool

/-- The `t` attribute every `BaseNode` carries. -/
def Node.t : Node → SchematicTreeNodeType
  | .any => .ANY
  | .null => .NULL
  | .boolean => .BOOLEAN
  | .number _ => .NUMBER
  | .string _ => .STRING
  | .object _ => .OBJECT
  | .array _ => .ARRAY
  | .keyIndexedArray _ _ => .KEY_INDEXED_ARRAY

/-- `isinstance(node, NullNode)`. -/
def isNullNode : Node → Bool
  | .null => true
  | _ => false

/-- The fields built by `KeyIndexedArrayNode.to_object_node`: one field
`(element, optional=False, nullable = isinstance(element, NullNode))` per key.
The Python dict is keyed by a set, so the canonical sorted order is taken. -/
def toObjectFields (ks : Finset String) (v : Node) : List Field :=
  (ks.sort (· ≤ ·)).map (fun k => (k, v, false, isNullNode v))

/-- `KeyIndexedArrayNode.to_object_node`. -/
def toObjectNode (ks : Finset String) (v : Node) : Node :=
  .object (toObjectFields ks v)

mutual

/-- The Python expression `a + b` on nodes, `none` when it raises.

* `AnyNode.__add__` returns `other`; `AnyNode.__radd__` likewise, so `Any` swallows
  from either side (but a `KeyIndexedArrayNode` on the left never reaches it, see
  below).
* `NullNode.__add__`/`__radd__` return the other node unless it is an `AnyNode`,
  in which case they return the `NullNode`.
* `BooleanNode` inherits `SingletonNode.__add__` (`other is self`).
* `NumberNode`, `StringNode`, `ObjectNode`, `ArrayNode` combine their own class
  only (`isinstance(other, cls)`), else `NotImplemented`, so a right `Any`/`Null`
  is handled by that node's `__radd__` and any other mismatch raises `TypeError`.
* `KeyIndexedArrayNode.__add__` with another `KeyIndexedArrayNode` unions the key
  sets and merges the element nodes; a failing element merge escapes (the
  `except NotImplementedError():` clause never catches).  With any other operand
  it falls through to `self.to_object_node() + other`, inlined here. -/
def merge : Node → Node → Option Node
  | .any, b => some b
  | .null, .any => some .null
  | .null, b => some b
  | .boolean, .boolean => some .boolean
  | .boolean, .any => some .boolean
  | .boolean, .null => some .boolean
  | .boolean, _ => none
  | .number f, .number g => some (.number (f || g))
  | .number f, .any => some (.number f)
  | .number f, .null => some (.number f)
  | .number _, _ => none
  | .string c, .string d => some (.string (c + d))
  | .string c, .any => some (.string c)
  | .string c, .null => some (.string c)
  | .string _, _ => none
  | .object fs, .object gs =>
    match mergeFields fs gs with
    | some hs => some (.object hs)
    | none => none
  | .object fs, .any => some (.object fs)
  | .object fs, .null => some (.object fs)
  | .object _, _ => none
  | .array v, .array w =>
    match merge v w with
    | some u => some (.array u)
    | none => none
  | .array v, .any => some (.array v)
  | .array v, .null => some (.array v)
  | .array _, _ => none
  | .keyIndexedArray ks v, .keyIndexedArray ls w =>
    match merge v w with
    | some u => some (.keyIndexedArray (ks ∪ ls) u)
    | none => none
  | .keyIndexedArray ks v, .object gs =>
    match mergeFields (toObjectFields ks v) gs with
    | some hs => some (.object hs)
    | none => none
  | .keyIndexedArray ks v, .any => some (.object (toObjectFields ks v))
  | .keyIndexedArray ks v, .null => some (.object (toObjectFields ks v))
  | .keyIndexedArray _ _, _ => none
termination_by a b => (sizeOf b, sizeOf a)

/-- `ObjectNode.__add__`: union of the two field dicts, written as a merge of
association lists so that a sorted input yields a sorted output.  A field present
in both sides merges the nodes and ORs the flags; a field present in one side is
carried with `optional = True` and its own `nullable`. -/
def mergeFields : List Field → List Field → Option (List Field)
  | [], gs => some (gs.map (fun g => (g.1, g.2.1, true, g.2.2.2)))
  | f :: fs, [] => some ((f :: fs).map (fun f => (f.1, f.2.1, true, f.2.2.2)))
  | (k1, n1, o1, l1) :: fs, (k2, n2, o2, l2) :: gs =>
    if k1 < k2 then
      match mergeFields fs ((k2, n2, o2, l2) :: gs) with
      | some hs => some ((k1, n1, true, l1) :: hs)
      | none => none
    else if k2 < k1 then
      match mergeFields ((k1, n1, o1, l1) :: fs) gs with
      | some hs => some ((k2, n2, true, l2) :: hs)
      | none => none
    else
      match merge n1 n2 with
      | some n =>
        match mergeFields fs gs with
        | some hs => some ((k1, n, o1 || o2, l1 || l2) :: hs)
        | none => none
      | none => none
termination_by fs gs => (sizeOf gs, sizeOf fs)

end

/-- `JsinError` of `jsin_error.py`: an exception value carrying its constructor
arguments and a `loc` tuple of path segments (empty when first raised).  The
payload type is a parameter since subclasses store different `args`. -/
structure JsinError (α : Type) where
  args : α
  loc : List String
deriving DecidableEq

/-- `JsinError.under`: `new_error = type(self)(*self.args)` followed by
`new_error.loc = (parent_loc, *self.loc)` — a fresh error value whose location
is the parent segment prepended to the old location. -/
def JsinError.under (e : JsinError α) (parentLoc : String) : JsinError α :=
  { args := e.args, loc := parentLoc :: e.loc }

/-- The two `JsinError` subclasses `infer.py` raises, with their `loc`:
`UnrecognizableTypeError` (args: the offending object, irrelevant here) and
`IncompatibleNodesError` (args: the list of nodes that failed to combine). -/
inductive InferError where
  | unrecognizableType (loc : List String) : InferError
  | incompatibleNodes (loc : List String) (nodes : List Node) : InferError

/-- `JsinError.under` specialised to the two subclasses `infer.py` raises. -/
def InferError.under : InferError → String → InferError
  | .unrecognizableType loc, s => .unrecognizableType (s :: loc)
  | .incompatibleNodes loc ns, s => .incompatibleNodes (s :: loc) ns

/-- The `loc` attribute of an `InferError`. -/
def InferError.loc : InferError → List String
  | .unrecognizableType l => l
  | .incompatibleNodes l _ => l

/-- A decoded JSON value as `infer` receives it.  A number records only
`isinstance(obj, float)`, the single thing `infer` reads off it; an object is
the items of a Python dict in insertion order (keys unique). -/
inductive Json where
  | null : Json
  | bool (b : Bool) : Json
  | num (isFloat : Bool) : Json
  | str (s : String) : Json
  | arr (elems : List Json) : Json
  | obj (fields : List (String × Json)) : Json

/-- The enum `JsonPrimitiveType` of `infer.py`. -/
inductive JsonPrimitiveType where
  | NULL
  | TRUE
  | FALSE
  | NUMBER
  | STRING
  | ARRAY
  | OBJECT
deriving DecidableEq

/-- `JsonPrimitiveType.tell`.  In the boolean branch the source reads

    if obj:
        t = cls.TRUE
    t = cls.FALSE

with no `else`, so after the branch `t` is `FALSE` for both truth values. -/
def tell : Json → JsonPrimitiveType
  | .null => .NULL
  | .bool _ => .FALSE
  | .num _ => .NUMBER
  | .str _ => .STRING
  | .obj _ => .OBJECT
  | .arr _ => .ARRAY

/-- `sum(nodes, start=acc)`: the left fold of `+` over the node list, `none` as
soon as one addition raises.  `infer` always seeds it with `AnyNode()`. -/
def sumNodes : Node → List Node → Option Node
  | acc, [] => some acc
  | acc, n :: ns =>
    match merge acc n with
    | some acc' => sumNodes acc' ns
    | none => none

mutual

/-- `infer` of `infer.py`.

* null/boolean/number/string build the corresponding leaf node (`TRUE` and
  `FALSE` both reach the `BooleanNode` arm of the match).
* array: infer every element (a failure is re-raised tagged `"ARRAY_ELEMENT"`),
  then fold the children with `sum(children, start=AnyNode())`; a `TypeError`
  from the fold is re-raised as `IncompatibleNodesError(children)` — a fresh
  error whose `loc` is empty, no `"ARRAY_ELEMENT"` tag.
* object: infer every field value (a failure is re-raised tagged with that
  key), building `(value_node, optional=False, nullable=isinstance(value_node,
  NullNode))` per field in dict order; then try a `KeyIndexedArrayNode` whose
  keys are the dict's key set and whose element is the fold of the field value
  nodes; if that fold raises, fall back to the `ObjectNode`. -/
def infer : Json → Except InferError Node
  | .null => .ok .null
  | .bool _ => .ok .boolean
  | .num isFloat => .ok (.number isFloat)
  | .str s => .ok (.string {s})
  | .arr elems =>
    match inferList elems with
    | .error e => .error (e.under "ARRAY_ELEMENT")
    | .ok children =>
      match sumNodes .any children with
      | some v => .ok (.array v)
      | none => .error (.incompatibleNodes [] children)
  | .obj kvs =>
    match inferFields kvs with
    | .error e => .error e
    | .ok fields =>
      match sumNodes .any (fields.map (fun f => f.2.1)) with
      | some v => .ok (.keyIndexedArray (fields.map (fun f => f.1)).toFinset v)
      | none => .ok (.object fields)
termination_by j => sizeOf j

/-- The list comprehension `[infer(elem) for elem in obj]` in `infer`'s array
case: the first failing element's error propagates untagged (the array case
tags it once). -/
def inferList : List Json → Except InferError (List Node)
  | [] => .ok []
  | j :: js =>
    match infer j with
    | .error e => .error e
    | .ok n =>
      match inferList js with
      | .error e => .error e
      | .ok ns => .ok (n :: ns)
termination_by js => sizeOf js

/-- The field loop of `infer`'s object case: each field's value is inferred (a
failure re-raised tagged with that field's key), and the field entry
`(value_node, False, isinstance(value_node, NullNode))` recorded in dict
order. -/
def inferFields : List (String × Json) → Except InferError (List Field)
  | [] => .ok []
  | (k, j) :: kvs =>
    match infer j with
    | .error e => .error (e.under k)
    | .ok n =>
      match inferFields kvs with
      | .error e => .error e
      | .ok fs => .ok ((k, n, false, isNullNode n) :: fs)
termination_by kvs => sizeOf kvs

end

/-- `fields[key]` on an association list: the entry stored under `key`. -/
def lookupField : List Field → String → Option (Node × Bool × Bool)
  | [], _ => none
  | f :: fs, k => if f.1 = k then some f.2 else lookupField fs k

/-- A canonical association list for a Python dict: keys strictly increasing
(hence unique).  Python dict equality ignores insertion order, so general
statements about `ObjectNode.fields` quantify over this canonical form. -/
def FieldsSorted (fs : List Field) : Prop :=
  List.Pairwise (fun f g : Field => f.1 < g.1) fs

/-- The specification of `ObjectNode.__add__` (§4.3 of the spec), read off one
key: a field present in both sides holds the merge of the two nodes with each
flag the OR of the two sides; a field present in one side is carried with
`optional = true` and its own `nullable`; a field in neither is absent. -/
def RecordMergeSpec (fs gs hs : List Field) (k : String) : Prop :=
  match lookupField fs k, lookupField gs k with
  | some t1, some t2 => ∃ n, merge t1.1 t2.1 = some n ∧
      lookupField hs k = some (n, t1.2.1 || t2.2.1, t1.2.2 || t2.2.2)
  | some t1, none => lookupField hs k = some (t1.1, true, t1.2.2)
  | none, some t2 => lookupField hs k = some (t2.1, true, t2.2.2)
  | none, none => lookupField hs k = none

/-- Every key present in both field lists carries nodes whose merge succeeds:
the condition under which `ObjectNode.__add__` does not raise. -/
def PairwiseMergeDefined (fs gs : List Field) : Prop :=
  ∀ (k : String) (t1 t2 : Node × Bool × Bool),
    lookupField fs k = some t1 → lookupField gs k = some t2 →
    (merge t1.1 t2.1).isSome

mutual

/-- The node contains no `KeyIndexedArrayNode` anywhere. -/
def MapFree : Node → Prop
  | .object fs => MapFreeFields fs
  | .array v => MapFree v
  | .keyIndexedArray _ _ => False
  | _ => True
termination_by n => sizeOf n

/-- Every field node of the list is `MapFree`. -/
def MapFreeFields : List Field → Prop
  | [] => True
  | (_, n, _, _) :: fs => MapFree n ∧ MapFreeFields fs
termination_by fs => sizeOf fs

end

mutual

/-- Every `ObjectNode.fields` association list in the node is in canonical
sorted order. -/
def Canonical : Node → Prop
  | .object fs => FieldsSorted fs ∧ CanonicalFields fs
  | .array v => Canonical v
  | .keyIndexedArray _ v => Canonical v
  | _ => True
termination_by n => sizeOf n

/-- Every field node of the list is `Canonical`. -/
def CanonicalFields : List Field → Prop
  | [] => True
  | (_, n, _, _) :: fs => Canonical n ∧ CanonicalFields fs
termination_by fs => sizeOf fs

end


theorem lookupField_eq_none {fs : List Field} {k : String}
    (h : ∀ g ∈ fs, k < g.1) : lookupField fs k = none := by
  induction fs with
  | nil => rfl
  | cons f fs ih =>
    have hk : f.1 ≠ k := by
      have := h f (by simp)
      exact fun he => absurd (he ▸ this) (lt_irrefl _)
    simp [lookupField, hk]
    exact ih fun g hg => h g (by simp [hg])

theorem lookupField_mem {fs : List Field} {k : String} {t : Node × Bool × Bool}
    (h : lookupField fs k = some t) : (k, t) ∈ fs := by
  induction fs with
  | nil => simp [lookupField] at h
  | cons f fs ih =>
    by_cases hk : f.1 = k
    · simp [lookupField, hk] at h
      subst hk
      subst h
      simp
    · simp [lookupField, hk] at h
      simp [ih h]

theorem mergeFields_nil_right (fs : List Field) :
    mergeFields fs [] = some (fs.map (fun f => (f.1, f.2.1, true, f.2.2.2))) := by
  cases fs with
  | nil => simp [mergeFields]
  | cons f fs => simp [mergeFields]

theorem lookupField_map_opt (fs : List Field) (k : String) :
    lookupField (fs.map (fun f => (f.1, f.2.1, true, f.2.2.2))) k
      = (lookupField fs k).map (fun t => (t.1, true, t.2.2)) := by
  induction fs with
  | nil => simp [lookupField]
  | cons f fs ih =>
    by_cases hk : f.1 = k <;> simp [lookupField, hk, ih]

theorem fieldsSorted_cons {f : Field} {fs : List Field} :
    FieldsSorted (f :: fs) ↔ (∀ g ∈ fs, f.1 < g.1) ∧ FieldsSorted fs := by
  simp [FieldsSorted, List.pairwise_cons]

theorem mergeFields_cons_lt {k1 k2 : String} {n1 n2 : Node} {o1 l1 o2 l2 : Bool}
    {fs gs : List Field} (h : k1 < k2) :
    mergeFields ((k1, n1, o1, l1) :: fs) ((k2, n2, o2, l2) :: gs)
      = match mergeFields fs ((k2, n2, o2, l2) :: gs) with
        | some hs => some ((k1, n1, true, l1) :: hs)
        | none => none := by
  simp [mergeFields, h]

theorem mergeFields_cons_gt {k1 k2 : String} {n1 n2 : Node} {o1 l1 o2 l2 : Bool}
    {fs gs : List Field} (h : k2 < k1) :
    mergeFields ((k1, n1, o1, l1) :: fs) ((k2, n2, o2, l2) :: gs)
      = match mergeFields ((k1, n1, o1, l1) :: fs) gs with
        | some hs => some ((k2, n2, true, l2) :: hs)
        | none => none := by
  simp [mergeFields, h, lt_asymm h]

theorem mergeFields_cons_eq {k : String} {n1 n2 : Node} {o1 l1 o2 l2 : Bool}
    {fs gs : List Field} :
    mergeFields ((k, n1, o1, l1) :: fs) ((k, n2, o2, l2) :: gs)
      = match merge n1 n2 with
        | some n =>
          match mergeFields fs gs with
          | some hs => some ((k, n, o1 || o2, l1 || l2) :: hs)
          | none => none
        | none => none := by
  simp [mergeFields, lt_irrefl]

theorem lookupField_cons_self {k : String} {n : Node} {o l : Bool} {fs : List Field} :
    lookupField ((k, n, o, l) :: fs) k = some (n, o, l) := by
  simp [lookupField]

theorem recordMergeSpec_left_nil (gs : List Field) (k : String) :
    RecordMergeSpec [] gs (gs.map (fun g => (g.1, g.2.1, true, g.2.2.2))) k := by
  cases hl : lookupField gs k <;>
    simp [RecordMergeSpec, lookupField, lookupField_map_opt, hl]

theorem recordMergeSpec_right_nil (fs : List Field) (k : String) :
    RecordMergeSpec fs [] (fs.map (fun f => (f.1, f.2.1, true, f.2.2.2))) k := by
  cases hl : lookupField fs k <;>
    simp [RecordMergeSpec, lookupField, lookupField_map_opt, hl]

theorem mergeFields_lookup_aux :
    ∀ (N : Nat) (fs gs hs : List Field), fs.length + gs.length ≤ N →
    FieldsSorted fs → FieldsSorted gs →
    mergeFields fs gs = some hs → ∀ k : String, RecordMergeSpec fs gs hs k := by
  intro N
  induction N with
  | zero =>
    intro fs gs hs hlen hf hg h k
    cases fs with
    | nil =>
      simp only [mergeFields] at h
      obtain rfl := Option.some.inj h
      exact recordMergeSpec_left_nil gs k
    | cons f fs => simp at hlen
  | succ N ih =>
    intro fs gs hs hlen hf hg h k
    cases fs with
    | nil =>
      simp only [mergeFields] at h
      obtain rfl := Option.some.inj h
      exact recordMergeSpec_left_nil gs k
    | cons f fs =>
      cases gs with
      | nil =>
        rw [mergeFields_nil_right] at h
        obtain rfl := Option.some.inj h
        exact recordMergeSpec_right_nil (f :: fs) k
      | cons g gs =>
        obtain ⟨k1, n1, o1, l1⟩ := f
        obtain ⟨k2, n2, o2, l2⟩ := g
        have hf' := (fieldsSorted_cons.mp hf).2
        have hg' := (fieldsSorted_cons.mp hg).2
        rcases lt_trichotomy k1 k2 with hlt | heq | hgt
        · rw [mergeFields_cons_lt hlt] at h
          cases hrec : mergeFields fs ((k2, n2, o2, l2) :: gs) with
          | none => rw [hrec] at h; simp at h
          | some hs' =>
            rw [hrec] at h
            simp only [Option.some.injEq] at h
            subst h
            by_cases hk : k1 = k
            · subst hk
              have hgnone : lookupField ((k2, n2, o2, l2) :: gs) k1 = none := by
                apply lookupField_eq_none
                intro x hx
                rcases List.mem_cons.mp hx with rfl | hx'
                · exact hlt
                · exact lt_trans hlt ((fieldsSorted_cons.mp hg).1 x hx')
              simp only [RecordMergeSpec, lookupField_cons_self, hgnone]
            · have H := ih fs ((k2, n2, o2, l2) :: gs) hs' (by simp at hlen ⊢; omega)
                hf' hg hrec k
              simpa [RecordMergeSpec, lookupField, hk] using H
        · subst heq
          rw [mergeFields_cons_eq] at h
          cases hm : merge n1 n2 with
          | none => rw [hm] at h; simp at h
          | some n =>
            rw [hm] at h
            cases hrec : mergeFields fs gs with
            | none => rw [hrec] at h; simp at h
            | some hs' =>
              rw [hrec] at h
              simp only [Option.some.injEq] at h
              subst h
              by_cases hk : k1 = k
              · subst hk
                simp only [RecordMergeSpec, lookupField_cons_self]
                exact ⟨n, hm, rfl⟩
              · have H := ih fs gs hs' (by simp at hlen ⊢; omega) hf' hg' hrec k
                simpa [RecordMergeSpec, lookupField, hk] using H
        · rw [mergeFields_cons_gt hgt] at h
          cases hrec : mergeFields ((k1, n1, o1, l1) :: fs) gs with
          | none => rw [hrec] at h; simp at h
          | some hs' =>
            rw [hrec] at h
            simp only [Option.some.injEq] at h
            subst h
            by_cases hk : k2 = k
            · subst hk
              have hfnone : lookupField ((k1, n1, o1, l1) :: fs) k2 = none := by
                apply lookupField_eq_none
                intro x hx
                rcases List.mem_cons.mp hx with rfl | hx'
                · exact hgt
                · exact lt_trans hgt ((fieldsSorted_cons.mp hf).1 x hx')
              simp only [RecordMergeSpec, lookupField_cons_self, hfnone]
            · have H := ih ((k1, n1, o1, l1) :: fs) gs hs' (by simp at hlen ⊢; omega)
                hf hg' hrec k
              simpa [RecordMergeSpec, lookupField, hk] using H

theorem mergeFields_lookup {fs gs hs : List Field}
    (hf : FieldsSorted fs) (hg : FieldsSorted gs)
    (h : mergeFields fs gs = some hs) (k : String) : RecordMergeSpec fs gs hs k :=
  mergeFields_lookup_aux (fs.length + gs.length) fs gs hs le_rfl hf hg h k

theorem mergeFields_mem_keys_aux :
    ∀ (N : Nat) (fs gs hs : List Field), fs.length + gs.length ≤ N →
    mergeFields fs gs = some hs →
    ∀ x ∈ hs, (∃ f ∈ fs, x.1 = f.1) ∨ (∃ g ∈ gs, x.1 = g.1) := by
  intro N
  induction N with
  | zero =>
    intro fs gs hs hlen h x hx
    cases fs with
    | nil =>
      simp only [mergeFields] at h
      obtain rfl := Option.some.inj h
      obtain ⟨g, hg, rfl⟩ := List.mem_map.mp hx
      exact Or.inr ⟨g, hg, rfl⟩
    | cons f fs => simp at hlen
  | succ N ih =>
    intro fs gs hs hlen h x hx
    cases fs with
    | nil =>
      simp only [mergeFields] at h
      obtain rfl := Option.some.inj h
      obtain ⟨g, hg, rfl⟩ := List.mem_map.mp hx
      exact Or.inr ⟨g, hg, rfl⟩
    | cons f fs =>
      cases gs with
      | nil =>
        rw [mergeFields_nil_right] at h
        obtain rfl := Option.some.inj h
        obtain ⟨g, hg, rfl⟩ := List.mem_map.mp hx
        exact Or.inl ⟨g, hg, rfl⟩
      | cons g gs =>
        obtain ⟨k1, n1, o1, l1⟩ := f
        obtain ⟨k2, n2, o2, l2⟩ := g
        rcases lt_trichotomy k1 k2 with hlt | heq | hgt
        · rw [mergeFields_cons_lt hlt] at h
          cases hrec : mergeFields fs ((k2, n2, o2, l2) :: gs) with
          | none => rw [hrec] at h; simp at h
          | some hs' =>
            rw [hrec] at h
            obtain rfl := Option.some.inj h
            rcases List.mem_cons.mp hx with rfl | hx'
            · exact Or.inl ⟨(k1, n1, o1, l1), by simp, rfl⟩
            · rcases ih fs ((k2, n2, o2, l2) :: gs) hs' (by simp at hlen ⊢; omega)
                hrec x hx' with ⟨f', hf', he⟩ | hr
              · exact Or.inl ⟨f', by simp [hf'], he⟩
              · exact Or.inr hr
        · subst heq
          rw [mergeFields_cons_eq] at h
          cases hm : merge n1 n2 with
          | none => rw [hm] at h; simp at h
          | some n =>
            rw [hm] at h
            cases hrec : mergeFields fs gs with
            | none => rw [hrec] at h; simp at h
            | some hs' =>
              rw [hrec] at h
              obtain rfl := Option.some.inj h
              rcases List.mem_cons.mp hx with rfl | hx'
              · exact Or.inl ⟨(k1, n1, o1, l1), by simp, rfl⟩
              · rcases ih fs gs hs' (by simp at hlen ⊢; omega) hrec x hx' with
                  ⟨f', hf', he⟩ | ⟨g', hg', he⟩
                · exact Or.inl ⟨f', by simp [hf'], he⟩
                · exact Or.inr ⟨g', by simp [hg'], he⟩
        · rw [mergeFields_cons_gt hgt] at h
          cases hrec : mergeFields ((k1, n1, o1, l1) :: fs) gs with
          | none => rw [hrec] at h; simp at h
          | some hs' =>
            rw [hrec] at h
            obtain rfl := Option.some.inj h
            rcases List.mem_cons.mp hx with rfl | hx'
            · exact Or.inr ⟨(k2, n2, o2, l2), by simp, rfl⟩
            · rcases ih ((k1, n1, o1, l1) :: fs) gs hs' (by simp at hlen ⊢; omega)
                hrec x hx' with hl | ⟨g', hg', he⟩
              · exact Or.inl hl
              · exact Or.inr ⟨g', by simp [hg'], he⟩

theorem mergeFields_mem_keys {fs gs hs : List Field} (h : mergeFields fs gs = some hs) :
    ∀ x ∈ hs, (∃ f ∈ fs, x.1 = f.1) ∨ (∃ g ∈ gs, x.1 = g.1) :=
  mergeFields_mem_keys_aux (fs.length + gs.length) fs gs hs le_rfl h

theorem fieldsSorted_map_opt {gs : List Field} (h : FieldsSorted gs) :
    FieldsSorted (gs.map (fun g => (g.1, g.2.1, true, g.2.2.2))) := by
  simpa [FieldsSorted, List.pairwise_map] using h

theorem mergeFields_sorted_aux :
    ∀ (N : Nat) (fs gs hs : List Field), fs.length + gs.length ≤ N →
    FieldsSorted fs → FieldsSorted gs →
    mergeFields fs gs = some hs → FieldsSorted hs := by
  intro N
  induction N with
  | zero =>
    intro fs gs hs hlen hf hg h
    cases fs with
    | nil =>
      simp only [mergeFields] at h
      obtain rfl := Option.some.inj h
      exact fieldsSorted_map_opt hg
    | cons f fs => simp at hlen
  | succ N ih =>
    intro fs gs hs hlen hf hg h
    cases fs with
    | nil =>
      simp only [mergeFields] at h
      obtain rfl := Option.some.inj h
      exact fieldsSorted_map_opt hg
    | cons f fs =>
      cases gs with
      | nil =>
        rw [mergeFields_nil_right] at h
        obtain rfl := Option.some.inj h
        exact fieldsSorted_map_opt hf
      | cons g gs =>
        obtain ⟨k1, n1, o1, l1⟩ := f
        obtain ⟨k2, n2, o2, l2⟩ := g
        have hf' := (fieldsSorted_cons.mp hf).2
        have hg' := (fieldsSorted_cons.mp hg).2
        rcases lt_trichotomy k1 k2 with hlt | heq | hgt
        · rw [mergeFields_cons_lt hlt] at h
          cases hrec : mergeFields fs ((k2, n2, o2, l2) :: gs) with
          | none => rw [hrec] at h; simp at h
          | some hs' =>
            rw [hrec] at h
            obtain rfl := Option.some.inj h
            refine fieldsSorted_cons.mpr ⟨?_, ?_⟩
            · intro x hx
              rcases mergeFields_mem_keys hrec x hx with ⟨f', hf'', he⟩ | ⟨g', hg'', he⟩
              · exact he ▸ (fieldsSorted_cons.mp hf).1 f' hf''
              · rcases List.mem_cons.mp hg'' with rfl | hg'''
                · exact he ▸ hlt
                · exact he ▸ lt_trans hlt ((fieldsSorted_cons.mp hg).1 g' hg''')
            · exact ih fs ((k2, n2, o2, l2) :: gs) hs' (by simp at hlen ⊢; omega)
                hf' hg hrec
        · subst heq
          rw [mergeFields_cons_eq] at h
          cases hm : merge n1 n2 with
          | none => rw [hm] at h; simp at h
          | some n =>
            rw [hm] at h
            cases hrec : mergeFields fs gs with
            | none => rw [hrec] at h; simp at h
            | some hs' =>
              rw [hrec] at h
              obtain rfl := Option.some.inj h
              refine fieldsSorted_cons.mpr ⟨?_, ?_⟩
              · intro x hx
                rcases mergeFields_mem_keys hrec x hx with ⟨f', hf'', he⟩ | ⟨g', hg'', he⟩
                · exact he ▸ (fieldsSorted_cons.mp hf).1 f' hf''
                · exact he ▸ (fieldsSorted_cons.mp hg).1 g' hg''
              · exact ih fs gs hs' (by simp at hlen ⊢; omega) hf' hg' hrec
        · rw [mergeFields_cons_gt hgt] at h
          cases hrec : mergeFields ((k1, n1, o1, l1) :: fs) gs with
          | none => rw [hrec] at h; simp at h
          | some hs' =>
            rw [hrec] at h
            obtain rfl := Option.some.inj h
            refine fieldsSorted_cons.mpr ⟨?_, ?_⟩
            · intro x hx
              rcases mergeFields_mem_keys hrec x hx with ⟨f', hf'', he⟩ | ⟨g', hg'', he⟩
              · rcases List.mem_cons.mp hf'' with rfl | hf'''
                · exact he ▸ hgt
                · exact he ▸ lt_trans hgt ((fieldsSorted_cons.mp hf).1 f' hf''')
              · exact he ▸ (fieldsSorted_cons.mp hg).1 g' hg''
            · exact ih ((k1, n1, o1, l1) :: fs) gs hs' (by simp at hlen ⊢; omega)
                hf hg' hrec

theorem mergeFields_sorted {fs gs hs : List Field}
    (hf : FieldsSorted fs) (hg : FieldsSorted gs)
    (h : mergeFields fs gs = some hs) : FieldsSorted hs :=
  mergeFields_sorted_aux (fs.length + gs.length) fs gs hs le_rfl hf hg h

theorem lookupField_ext :
    ∀ (fs gs : List Field), FieldsSorted fs → FieldsSorted gs →
    (∀ k, lookupField fs k = lookupField gs k) → fs = gs := by
  intro fs
  induction fs with
  | nil =>
    intro gs _ hg h
    cases gs with
    | nil => rfl
    | cons g gs =>
      have := h g.1
      rw [lookupField] at this
      simp [lookupField] at this
  | cons f fs ihf =>
    intro gs hf hg h
    cases gs with
    | nil =>
      have := h f.1
      simp [lookupField] at this
    | cons g gs =>
      obtain ⟨k1, n1, o1, l1⟩ := f
      obtain ⟨k2, n2, o2, l2⟩ := g
      have hf1 := (fieldsSorted_cons.mp hf).1
      have hg1 := (fieldsSorted_cons.mp hg).1
      have hkeys : k1 = k2 := by
        rcases lt_trichotomy k1 k2 with hlt | heq | hgt
        · exfalso
          have h1 := h k1
          rw [lookupField_cons_self] at h1
          rw [show lookupField ((k2, n2, o2, l2) :: gs) k1 = none from
            lookupField_eq_none ?_] at h1
          · simp at h1
          · intro x hx
            rcases List.mem_cons.mp hx with rfl | hx'
            · exact hlt
            · exact lt_trans hlt (hg1 x hx')
        · exact heq
        · exfalso
          have h1 := h k2
          rw [lookupField_cons_self] at h1
          rw [show lookupField ((k1, n1, o1, l1) :: fs) k2 = none from
            lookupField_eq_none ?_] at h1
          · simp at h1
          · intro x hx
            rcases List.mem_cons.mp hx with rfl | hx'
            · exact hgt
            · exact lt_trans hgt (hf1 x hx')
      subst hkeys
      have hhead := h k1
      rw [lookupField_cons_self, lookupField_cons_self] at hhead
      obtain ⟨rfl, rfl, rfl⟩ : n1 = n2 ∧ o1 = o2 ∧ l1 = l2 := by
        simpa using hhead
      have htail : ∀ k, lookupField fs k = lookupField gs k := by
        intro k
        by_cases hk : k1 = k
        · subst hk
          rw [lookupField_eq_none fun x hx => hf1 x hx,
            lookupField_eq_none fun x hx => hg1 x hx]
        · have := h k
          simpa [lookupField, hk] using this
      exact congrArg _ (ihf gs (fieldsSorted_cons.mp hf).2 (fieldsSorted_cons.mp hg).2 htail)

theorem lookupField_some_key_mem {fs : List Field} {k : String} {t : Node × Bool × Bool}
    (h : lookupField fs k = some t) : ∃ f ∈ fs, f.1 = k :=
  ⟨(k, t), lookupField_mem h, rfl⟩

theorem pairwiseMergeDefined_cons_left {f : Field} {fs gs : List Field}
    (hf : FieldsSorted (f :: fs)) (hnone : lookupField gs f.1 = none) :
    PairwiseMergeDefined (f :: fs) gs ↔ PairwiseMergeDefined fs gs := by
  constructor
  · intro H k t1 t2 h1 h2
    refine H k t1 t2 ?_ h2
    obtain ⟨f', hf', rfl⟩ := lookupField_some_key_mem h1
    have hne : f.1 ≠ f'.1 := ne_of_lt ((fieldsSorted_cons.mp hf).1 f' hf')
    obtain ⟨kf, nf, onf, lnf⟩ := f
    simpa [lookupField, hne] using h1
  · intro H k t1 t2 h1 h2
    by_cases hk : f.1 = k
    · subst hk
      rw [hnone] at h2
      exact absurd h2 (by simp)
    · obtain ⟨kf, nf, onf, lnf⟩ := f
      simp only [lookupField] at h1
      rw [if_neg hk] at h1
      exact H k t1 t2 h1 h2

theorem pairwiseMergeDefined_cons_right {g : Field} {fs gs : List Field}
    (hg : FieldsSorted (g :: gs)) (hnone : lookupField fs g.1 = none) :
    PairwiseMergeDefined fs (g :: gs) ↔ PairwiseMergeDefined fs gs := by
  constructor
  · intro H k t1 t2 h1 h2
    refine H k t1 t2 h1 ?_
    obtain ⟨g', hg', rfl⟩ := lookupField_some_key_mem h2
    have hne : g.1 ≠ g'.1 := ne_of_lt ((fieldsSorted_cons.mp hg).1 g' hg')
    obtain ⟨kg, ng, ong, lng⟩ := g
    simpa [lookupField, hne] using h2
  · intro H k t1 t2 h1 h2
    by_cases hk : g.1 = k
    · subst hk
      rw [hnone] at h1
      exact absurd h1 (by simp)
    · obtain ⟨kg, ng, ong, lng⟩ := g
      simp only [lookupField] at h2
      rw [if_neg hk] at h2
      exact H k t1 t2 h1 h2

theorem pairwiseMergeDefined_cons_eq {k : String} {x y : Node × Bool × Bool}
    {fs gs : List Field}
    (hf : FieldsSorted ((k, x) :: fs)) (hg : FieldsSorted ((k, y) :: gs)) :
    PairwiseMergeDefined ((k, x) :: fs) ((k, y) :: gs)
      ↔ (merge x.1 y.1).isSome ∧ PairwiseMergeDefined fs gs := by
  constructor
  · intro H
    constructor
    · exact H k x y (by simp [lookupField]) (by simp [lookupField])
    · intro k' t1 t2 h1 h2
      have hne1 : k ≠ k' := by
        obtain ⟨f', hf', rfl⟩ := lookupField_some_key_mem h1
        exact ne_of_lt ((fieldsSorted_cons.mp hf).1 f' hf')
      refine H k' t1 t2 ?_ ?_ <;> simp only [lookupField] <;> rw [if_neg hne1]
      · exact h1
      · exact h2
  · rintro ⟨hm, H⟩ k' t1 t2 h1 h2
    by_cases hk : k = k'
    · subst hk
      simp only [lookupField, if_pos rfl] at h1 h2
      obtain rfl := Option.some.inj h1
      obtain rfl := Option.some.inj h2
      exact hm
    · simp only [lookupField] at h1 h2
      rw [if_neg hk] at h1 h2
      exact H k' t1 t2 h1 h2

theorem mergeFields_isSome_iff_aux :
    ∀ (N : Nat) (fs gs : List Field), fs.length + gs.length ≤ N →
    FieldsSorted fs → FieldsSorted gs →
    ((mergeFields fs gs).isSome ↔ PairwiseMergeDefined fs gs) := by
  intro N
  induction N with
  | zero =>
    intro fs gs hlen hf hg
    cases fs with
    | nil =>
      simp only [mergeFields]
      constructor
      · intro _ k t1 t2 h1 _
        simp [lookupField] at h1
      · intro _
        simp
    | cons f fs => simp at hlen
  | succ N ih =>
    intro fs gs hlen hf hg
    cases fs with
    | nil =>
      simp only [mergeFields]
      constructor
      · intro _ k t1 t2 h1 _
        simp [lookupField] at h1
      · intro _
        simp
    | cons f fs =>
      cases gs with
      | nil =>
        rw [mergeFields_nil_right]
        constructor
        · intro _ k t1 t2 _ h2
          simp [lookupField] at h2
        · intro _
          simp
      | cons g gs =>
        obtain ⟨k1, n1, o1, l1⟩ := f
        obtain ⟨k2, n2, o2, l2⟩ := g
        have hf' := (fieldsSorted_cons.mp hf).2
        have hg' := (fieldsSorted_cons.mp hg).2
        rcases lt_trichotomy k1 k2 with hlt | heq | hgt
        · rw [mergeFields_cons_lt hlt]
          have hnone : lookupField ((k2, n2, o2, l2) :: gs) k1 = none := by
            apply lookupField_eq_none
            intro x hx
            rcases List.mem_cons.mp hx with rfl | hx'
            · exact hlt
            · exact lt_trans hlt ((fieldsSorted_cons.mp hg).1 x hx')
          rw [pairwiseMergeDefined_cons_left hf hnone]
          rw [← ih fs ((k2, n2, o2, l2) :: gs) (by simp at hlen ⊢; omega) hf' hg]
          cases mergeFields fs ((k2, n2, o2, l2) :: gs) <;> simp
        · subst heq
          rw [mergeFields_cons_eq]
          rw [pairwiseMergeDefined_cons_eq hf hg]
          rw [← ih fs gs (by simp at hlen ⊢; omega) hf' hg']
          cases merge n1 n2 <;> cases mergeFields fs gs <;> simp
        · rw [mergeFields_cons_gt hgt]
          have hnone : lookupField ((k1, n1, o1, l1) :: fs) k2 = none := by
            apply lookupField_eq_none
            intro x hx
            rcases List.mem_cons.mp hx with rfl | hx'
            · exact hgt
            · exact lt_trans hgt ((fieldsSorted_cons.mp hf).1 x hx')
          rw [pairwiseMergeDefined_cons_right hg hnone]
          rw [← ih ((k1, n1, o1, l1) :: fs) gs (by simp at hlen ⊢; omega) hf hg']
          cases mergeFields ((k1, n1, o1, l1) :: fs) gs <;> simp

theorem mergeFields_isSome_iff {fs gs : List Field}
    (hf : FieldsSorted fs) (hg : FieldsSorted gs) :
    ((mergeFields fs gs).isSome ↔ PairwiseMergeDefined fs gs) :=
  mergeFields_isSome_iff_aux (fs.length + gs.length) fs gs le_rfl hf hg

theorem mergeFields_comm_aux :
    ∀ (N : Nat) (fs gs : List Field), fs.length + gs.length ≤ N →
    (∀ f ∈ fs, ∀ g ∈ gs, merge f.2.1 g.2.1 = merge g.2.1 f.2.1) →
    mergeFields fs gs = mergeFields gs fs := by
  intro N
  induction N with
  | zero =>
    intro fs gs hlen hcomm
    cases fs with
    | nil =>
      cases gs with
      | nil => rfl
      | cons g gs => simp at hlen
    | cons f fs => simp at hlen
  | succ N ih =>
    intro fs gs hlen hcomm
    cases fs with
    | nil =>
      cases gs with
      | nil => rfl
      | cons g gs =>
        rw [mergeFields_nil_right]
        simp [mergeFields]
    | cons f fs =>
      cases gs with
      | nil =>
        rw [mergeFields_nil_right]
        simp [mergeFields]
      | cons g gs =>
        obtain ⟨k1, n1, o1, l1⟩ := f
        obtain ⟨k2, n2, o2, l2⟩ := g
        rcases lt_trichotomy k1 k2 with hlt | heq | hgt
        · rw [mergeFields_cons_lt hlt, mergeFields_cons_gt hlt]
          rw [ih fs ((k2, n2, o2, l2) :: gs) (by simp at hlen ⊢; omega)
            (fun f hf g hg => hcomm f (by simp [hf]) g hg)]
        · subst heq
          rw [mergeFields_cons_eq, mergeFields_cons_eq]
          rw [hcomm (k1, n1, o1, l1) (by simp) (k1, n2, o2, l2) (by simp)]
          rw [ih fs gs (by simp at hlen ⊢; omega)
            (fun f hf g hg => hcomm f (by simp [hf]) g (by simp [hg]))]
          cases merge n2 n1 <;> cases mergeFields gs fs <;>
            simp [Bool.or_comm]
        · rw [mergeFields_cons_gt hgt, mergeFields_cons_lt hgt]
          rw [ih ((k1, n1, o1, l1) :: fs) gs (by simp at hlen ⊢; omega)
            (fun f hf g hg => hcomm f hf g (by simp [hg]))]

theorem mapFree_cons {f : Field} {fs : List Field} :
    MapFreeFields (f :: fs) ↔ MapFree f.2.1 ∧ MapFreeFields fs := by
  obtain ⟨k, n, o, l⟩ := f
  simp [MapFreeFields]

theorem mapFreeFields_mem {fs : List Field} (h : MapFreeFields fs) :
    ∀ f ∈ fs, MapFree f.2.1 := by
  induction fs with
  | nil => simp
  | cons f fs ih =>
    intro g hg
    rcases List.mem_cons.mp hg with rfl | hg'
    · exact (mapFree_cons.mp h).1
    · exact ih (mapFree_cons.mp h).2 g hg'

theorem sizeOf_field_node {f : Field} {fs : List Field} (h : f ∈ fs) :
    sizeOf f.2.1 < sizeOf fs := by
  have h1 := List.sizeOf_lt_of_mem h
  obtain ⟨k, n, o, l⟩ := f
  simp at h1 ⊢
  omega

theorem merge_comm_aux :
    ∀ (N : Nat) (a b : Node), sizeOf a + sizeOf b ≤ N →
    MapFree a → MapFree b → merge a b = merge b a := by
  intro N
  induction N using Nat.strong_induction_on with
  | _ N ih =>
    intro a b hlen hfa hfb
    cases a with
    | keyIndexedArray ks v => simp [MapFree] at hfa
    | object fs =>
      cases b with
      | keyIndexedArray ls w => simp [MapFree] at hfb
      | object gs =>
        have hcomm : ∀ f ∈ fs, ∀ g ∈ gs, merge f.2.1 g.2.1 = merge g.2.1 f.2.1 := by
          intro f hf g hg
          refine ih (sizeOf f.2.1 + sizeOf g.2.1) ?_ f.2.1 g.2.1 le_rfl
            (mapFreeFields_mem (by simpa [MapFree] using hfa) f hf)
            (mapFreeFields_mem (by simpa [MapFree] using hfb) g hg)
          have h1 := sizeOf_field_node hf
          have h2 := sizeOf_field_node hg
          simp at hlen
          omega
        rw [merge, merge, mergeFields_comm_aux (fs.length + gs.length) fs gs le_rfl hcomm]
      | any => simp [merge]
      | null => simp [merge]
      | boolean => simp [merge]
      | number g => simp [merge]
      | string d => simp [merge]
      | array w => simp [merge]
    | array v =>
      cases b with
      | keyIndexedArray ls w => simp [MapFree] at hfb
      | array w =>
        have : merge v w = merge w v := by
          refine ih (sizeOf v + sizeOf w) ?_ v w le_rfl
            (by simpa [MapFree] using hfa) (by simpa [MapFree] using hfb)
          simp at hlen
          omega
        rw [merge, merge, this]
      | any => simp [merge]
      | null => simp [merge]
      | boolean => simp [merge]
      | number g => simp [merge]
      | string d => simp [merge]
      | object gs => simp [merge]
    | any => cases b <;> simp [merge, MapFree] at hfb ⊢
    | null => cases b <;> simp [merge, MapFree] at hfb ⊢
    | boolean => cases b <;> simp [merge, MapFree] at hfb ⊢
    | number f => cases b <;> simp [merge, MapFree, Bool.or_comm] at hfb ⊢
    | string c => cases b <;> simp [merge, MapFree, add_comm] at hfb ⊢

theorem merge_comm {a b : Node} (ha : MapFree a) (hb : MapFree b) :
    merge a b = merge b a :=
  merge_comm_aux (sizeOf a + sizeOf b) a b le_rfl ha hb

theorem mapFree_t_ne {a : Node} (h : MapFree a) : a.t ≠ .KEY_INDEXED_ARRAY := by
  cases a <;> simp [Node.t, MapFree] at h ⊢

theorem merge_any_right {a : Node} (h : a.t ≠ .KEY_INDEXED_ARRAY) :
    merge a .any = some a := by
  cases a <;> simp [Node.t] at h ⊢ <;> simp [merge]

theorem merge_null_left {b : Node} (h : b.t ≠ .ANY) : merge .null b = some b := by
  cases b <;> simp [Node.t] at h ⊢ <;> simp [merge]

theorem merge_null_right {a : Node} (h1 : a.t ≠ .ANY) (h2 : a.t ≠ .KEY_INDEXED_ARRAY) :
    merge a .null = some a := by
  cases a <;> simp [Node.t] at h1 h2 ⊢ <;> simp [merge]

theorem merge_result_ne_any {a b x : Node} (h : a.t ≠ .ANY)
    (hm : merge a b = some x) : x.t ≠ .ANY := by
  cases a <;> cases b <;>
    simp [Node.t, merge] at h hm ⊢ <;>
    first
    | (obtain rfl := hm; simp [Node.t])
    | (rcases hm with ⟨u, hu, rfl⟩; simp [Node.t])
    | (split at hm <;> simp at hm <;> (try (obtain rfl := hm)) <;> simp [Node.t])

theorem merge_result_ne_kia {a b x : Node} (ha : a.t ≠ .KEY_INDEXED_ARRAY)
    (hb : b.t ≠ .KEY_INDEXED_ARRAY) (hm : merge a b = some x) :
    x.t ≠ .KEY_INDEXED_ARRAY := by
  cases a <;> cases b <;>
    simp [Node.t, merge] at ha hb hm ⊢ <;>
    first
    | (obtain rfl := hm; simp [Node.t])
    | (rcases hm with ⟨u, hu, rfl⟩; simp [Node.t])
    | (split at hm <;> simp at hm <;> (try (obtain rfl := hm)) <;> simp [Node.t])

theorem merge_none_of_t_ne {a b : Node}
    (ha1 : a.t ≠ .ANY) (ha2 : a.t ≠ .NULL) (ha3 : a.t ≠ .KEY_INDEXED_ARRAY)
    (hb1 : b.t ≠ .ANY) (hb2 : b.t ≠ .NULL)
    (hne : a.t ≠ b.t) : merge a b = none := by
  cases a <;> cases b <;> simp [Node.t] at ha1 ha2 ha3 hb1 hb2 hne ⊢ <;> simp [merge]

theorem merge_result_t_eq {a b x : Node}
    (ha1 : a.t ≠ .ANY) (ha2 : a.t ≠ .NULL) (ha3 : a.t ≠ .KEY_INDEXED_ARRAY)
    (hb1 : b.t ≠ .ANY) (hb2 : b.t ≠ .NULL)
    (hm : merge a b = some x) : x.t = a.t := by
  cases a <;> cases b <;>
    simp [Node.t, merge] at ha1 ha2 ha3 hb1 hb2 hm ⊢ <;>
    first
    | (obtain rfl := hm; simp [Node.t])
    | (rcases hm with ⟨u, hu, rfl⟩; simp [Node.t])
    | (split at hm <;> simp at hm <;> (try (obtain rfl := hm)) <;> simp [Node.t])

theorem isSome_exists {x : Option Node} (h : x.isSome) : ∃ z, x = some z := by
  cases x with
  | none => simp at h
  | some z => exact ⟨z, rfl⟩

theorem pairwiseMergeDefined_of_some {fs gs : List Field} {hs : List Field}
    (hf : FieldsSorted fs) (hg : FieldsSorted gs)
    (h : mergeFields fs gs = some hs) : PairwiseMergeDefined fs gs := by
  rw [← mergeFields_isSome_iff hf hg]
  simp [h]

theorem mergeFields_assoc_defined {fs gs es hs L : List Field}
    (hf : FieldsSorted fs) (hg : FieldsSorted gs) (he : FieldsSorted es)
    (IH : ∀ f ∈ fs, ∀ g ∈ gs, ∀ e ∈ es,
      (merge f.2.1 g.2.1).bind (fun x => merge x e.2.1)
        = (merge g.2.1 e.2.1).bind (fun y => merge f.2.1 y))
    (hfg : mergeFields fs gs = some hs) (hL : mergeFields hs es = some L) :
    ∃ is, mergeFields gs es = some is ∧ (mergeFields fs is).isSome := by
  have hhs : FieldsSorted hs := mergeFields_sorted hf hg hfg
  have hPMDhe : PairwiseMergeDefined hs es := pairwiseMergeDefined_of_some hhs he hL
  have hgesome : (mergeFields gs es).isSome := by
    rw [mergeFields_isSome_iff hg he]
    intro k t2 t3 h2 h3
    have spec := mergeFields_lookup hf hg hfg k
    cases h1 : lookupField fs k with
    | none =>
      simp only [RecordMergeSpec, h1, h2] at spec
      simpa using hPMDhe k _ t3 spec h3
    | some t1 =>
      simp only [RecordMergeSpec, h1, h2] at spec
      obtain ⟨n12, hm12, hlk⟩ := spec
      have h123 := hPMDhe k _ t3 hlk h3
      have hIH := IH (k, t1) (lookupField_mem h1) (k, t2) (lookupField_mem h2)
        (k, t3) (lookupField_mem h3)
      simp only at hIH
      rw [hm12] at hIH
      simp only [Option.some_bind] at hIH
      rw [hIH] at h123
      cases h23 : merge t2.1 t3.1 with
      | none => rw [h23] at h123; simp at h123
      | some n23 => simp
  obtain ⟨is, his⟩ := Option.isSome_iff_exists.mp hgesome
  refine ⟨is, his, ?_⟩
  have hsis : FieldsSorted is := mergeFields_sorted hg he his
  rw [mergeFields_isSome_iff hf hsis]
  intro k t1 tis h1 his1
  have specge := mergeFields_lookup hg he his k
  have specfg := mergeFields_lookup hf hg hfg k
  cases h2 : lookupField gs k with
  | none =>
    cases h3 : lookupField es k with
    | none =>
      -- k not in gs nor es: is has no entry at k: contradiction with his1
      simp only [RecordMergeSpec, h2, h3] at specge
      rw [specge] at his1
      simp at his1
    | some t3 =>
      -- is entry = (t3.1, true, _): need (merge t1.1 t3.1).isSome
      simp only [RecordMergeSpec, h2, h3] at specge
      rw [specge] at his1
      obtain rfl := Option.some.inj his1
      -- hs at k = (t1.1, true, _)
      simp only [RecordMergeSpec, h1, h2] at specfg
      simpa using hPMDhe k _ t3 specfg h3
  | some t2 =>
    -- merge t1 t2 defined: from specfg
    simp only [RecordMergeSpec, h1, h2] at specfg
    obtain ⟨n12, hm12, hlk⟩ := specfg
    cases h3 : lookupField es k with
    | none =>
      -- is entry = (t2.1, true, _)
      simp only [RecordMergeSpec, h2, h3] at specge
      rw [specge] at his1
      obtain rfl := Option.some.inj his1
      simp [hm12]
    | some t3 =>
      -- is entry = merge t2 t3
      simp only [RecordMergeSpec, h2, h3] at specge
      obtain ⟨n23, hm23, hlk23⟩ := specge
      rw [hlk23] at his1
      obtain rfl := Option.some.inj his1
      -- need (merge t1.1 n23).isSome via IH
      have h123 := hPMDhe k _ t3 hlk h3
      have hIH := IH (k, t1) (lookupField_mem h1) (k, t2) (lookupField_mem h2)
        (k, t3) (lookupField_mem h3)
      simp only at hIH
      rw [hm12, hm23] at hIH
      simp only [Option.some_bind] at hIH
      rw [hIH] at h123
      simpa using h123

theorem mergeFields_assoc_defined_rev {fs gs es is R : List Field}
    (hf : FieldsSorted fs) (hg : FieldsSorted gs) (he : FieldsSorted es)
    (IH : ∀ f ∈ fs, ∀ g ∈ gs, ∀ e ∈ es,
      (merge f.2.1 g.2.1).bind (fun x => merge x e.2.1)
        = (merge g.2.1 e.2.1).bind (fun y => merge f.2.1 y))
    (hge : mergeFields gs es = some is) (hR : mergeFields fs is = some R) :
    ∃ hs, mergeFields fs gs = some hs ∧ (mergeFields hs es).isSome := by
  have hsis : FieldsSorted is := mergeFields_sorted hg he hge
  have hPMDfis : PairwiseMergeDefined fs is := pairwiseMergeDefined_of_some hf hsis hR
  have hfgsome : (mergeFields fs gs).isSome := by
    rw [mergeFields_isSome_iff hf hg]
    intro k t1 t2 h1 h2
    have specge := mergeFields_lookup hg he hge k
    cases h3 : lookupField es k with
    | none =>
      simp only [RecordMergeSpec, h2, h3] at specge
      simpa using hPMDfis k t1 _ h1 specge
    | some t3 =>
      simp only [RecordMergeSpec, h2, h3] at specge
      obtain ⟨n23, hm23, hlk23⟩ := specge
      have h123 := hPMDfis k t1 _ h1 hlk23
      have hIH := IH (k, t1) (lookupField_mem h1) (k, t2) (lookupField_mem h2)
        (k, t3) (lookupField_mem h3)
      simp only at hIH
      rw [hm23] at hIH
      simp only [Option.some_bind] at hIH
      rw [← hIH] at h123
      cases h12 : merge t1.1 t2.1 with
      | none => rw [h12] at h123; simp at h123
      | some n12 => simp
  obtain ⟨hs, hfg⟩ := Option.isSome_iff_exists.mp hfgsome
  refine ⟨hs, hfg, ?_⟩
  have hhs : FieldsSorted hs := mergeFields_sorted hf hg hfg
  rw [mergeFields_isSome_iff hhs he]
  intro k t12 t3 hlk12 h3
  have specfg := mergeFields_lookup hf hg hfg k
  have specge := mergeFields_lookup hg he hge k
  cases h1 : lookupField fs k with
  | none =>
    cases h2 : lookupField gs k with
    | none =>
      simp only [RecordMergeSpec, h1, h2] at specfg
      rw [specfg] at hlk12
      simp at hlk12
    | some t2 =>
      simp only [RecordMergeSpec, h1, h2] at specfg
      rw [specfg] at hlk12
      obtain rfl := Option.some.inj hlk12
      simp only [RecordMergeSpec, h2, h3] at specge
      obtain ⟨n23, hm23, hlk23⟩ := specge
      simp [hm23]
  | some t1 =>
    cases h2 : lookupField gs k with
    | none =>
      simp only [RecordMergeSpec, h1, h2] at specfg
      rw [specfg] at hlk12
      obtain rfl := Option.some.inj hlk12
      simp only [RecordMergeSpec, h2, h3] at specge
      simpa using hPMDfis k t1 _ h1 specge
    | some t2 =>
      simp only [RecordMergeSpec, h1, h2] at specfg
      obtain ⟨n12, hm12, hlk⟩ := specfg
      rw [hlk] at hlk12
      obtain rfl := Option.some.inj hlk12
      simp only [RecordMergeSpec, h2, h3] at specge
      obtain ⟨n23, hm23, hlk23⟩ := specge
      have h123 := hPMDfis k t1 _ h1 hlk23
      have hIH := IH (k, t1) (lookupField_mem h1) (k, t2) (lookupField_mem h2)
        (k, t3) (lookupField_mem h3)
      simp only at hIH
      rw [hm12, hm23] at hIH
      simp only [Option.some_bind] at hIH
      rw [← hIH] at h123
      simpa using h123

theorem mergeFields_assoc_eq {fs gs es hs is L R : List Field}
    (hf : FieldsSorted fs) (hg : FieldsSorted gs) (he : FieldsSorted es)
    (IH : ∀ f ∈ fs, ∀ g ∈ gs, ∀ e ∈ es,
      (merge f.2.1 g.2.1).bind (fun x => merge x e.2.1)
        = (merge g.2.1 e.2.1).bind (fun y => merge f.2.1 y))
    (hfg : mergeFields fs gs = some hs) (hL : mergeFields hs es = some L)
    (hge : mergeFields gs es = some is) (hR : mergeFields fs is = some R) :
    L = R := by
  have hhs : FieldsSorted hs := mergeFields_sorted hf hg hfg
  have hsis : FieldsSorted is := mergeFields_sorted hg he hge
  have hsL : FieldsSorted L := mergeFields_sorted hhs he hL
  have hsR : FieldsSorted R := mergeFields_sorted hf hsis hR
  apply lookupField_ext L R hsL hsR
  intro k
  have specfg := mergeFields_lookup hf hg hfg k
  have specL := mergeFields_lookup hhs he hL k
  have specge := mergeFields_lookup hg he hge k
  have specR := mergeFields_lookup hf hsis hR k
  cases h1 : lookupField fs k with
  | none =>
    cases h2 : lookupField gs k with
    | none =>
      simp only [RecordMergeSpec, h1, h2] at specfg
      simp only [RecordMergeSpec, h2] at specge
      cases h3 : lookupField es k with
      | none =>
        simp only [h3] at specge
        simp only [RecordMergeSpec, specfg, h3] at specL
        simp only [RecordMergeSpec, h1, specge] at specR
        rw [specL, specR]
      | some t3 =>
        simp only [h3] at specge
        simp only [RecordMergeSpec, specfg, h3] at specL
        simp only [RecordMergeSpec, h1, specge] at specR
        rw [specL, specR]
    | some t2 =>
      simp only [RecordMergeSpec, h1, h2] at specfg
      simp only [RecordMergeSpec, h2] at specge
      cases h3 : lookupField es k with
      | none =>
        simp only [h3] at specge
        simp only [RecordMergeSpec, specfg, h3] at specL
        simp only [RecordMergeSpec, h1, specge] at specR
        rw [specL, specR]
      | some t3 =>
        simp only [h3] at specge
        obtain ⟨n23, hm23, hlk23⟩ := specge
        simp only [RecordMergeSpec, specfg, h3] at specL
        obtain ⟨m, hm, hlkL⟩ := specL
        rw [hm23] at hm
        obtain rfl := Option.some.inj hm
        simp only [RecordMergeSpec, h1, hlk23] at specR
        rw [hlkL, specR]
        try simp
  | some t1 =>
    cases h2 : lookupField gs k with
    | none =>
      simp only [RecordMergeSpec, h1, h2] at specfg
      simp only [RecordMergeSpec, h2] at specge
      cases h3 : lookupField es k with
      | none =>
        simp only [h3] at specge
        simp only [RecordMergeSpec, specfg, h3] at specL
        simp only [RecordMergeSpec, h1, specge] at specR
        rw [specL, specR]
      | some t3 =>
        simp only [h3] at specge
        simp only [RecordMergeSpec, specfg, h3] at specL
        obtain ⟨m, hm, hlkL⟩ := specL
        simp only [RecordMergeSpec, h1, specge] at specR
        obtain ⟨m2, hm2, hlkR⟩ := specR
        try simp only at hm hm2
        rw [hm] at hm2
        obtain rfl := Option.some.inj hm2
        rw [hlkL, hlkR]
        try simp
    | some t2 =>
      simp only [RecordMergeSpec, h1, h2] at specfg
      obtain ⟨n12, hm12, hlk12⟩ := specfg
      simp only [RecordMergeSpec, h2] at specge
      cases h3 : lookupField es k with
      | none =>
        simp only [h3] at specge
        simp only [RecordMergeSpec, hlk12, h3] at specL
        simp only [RecordMergeSpec, h1, specge] at specR
        obtain ⟨m2, hm2, hlkR⟩ := specR
        try simp only at hm2
        rw [hm12] at hm2
        obtain rfl := Option.some.inj hm2
        rw [specL, hlkR]
        try simp
      | some t3 =>
        simp only [h3] at specge
        obtain ⟨n23, hm23, hlk23⟩ := specge
        simp only [RecordMergeSpec, hlk12, h3] at specL
        obtain ⟨mL, hmL, hlkL⟩ := specL
        simp only [RecordMergeSpec, h1, hlk23] at specR
        obtain ⟨mR, hmR, hlkR⟩ := specR
        have hIH := IH (k, t1) (lookupField_mem h1) (k, t2) (lookupField_mem h2)
          (k, t3) (lookupField_mem h3)
        try simp only at hIH hmL hmR
        rw [hm12, hm23] at hIH
        simp only [Option.some_bind] at hIH
        rw [hmL, hmR] at hIH
        obtain rfl := Option.some.inj hIH
        rw [hlkL, hlkR]
        simp [Bool.or_assoc]

theorem mergeFields_assoc_of {fs gs es : List Field}
    (hf : FieldsSorted fs) (hg : FieldsSorted gs) (he : FieldsSorted es)
    (IH : ∀ f ∈ fs, ∀ g ∈ gs, ∀ e ∈ es,
      (merge f.2.1 g.2.1).bind (fun x => merge x e.2.1)
        = (merge g.2.1 e.2.1).bind (fun y => merge f.2.1 y)) :
    (mergeFields fs gs).bind (fun hs => mergeFields hs es)
      = (mergeFields gs es).bind (fun is => mergeFields fs is) := by
  cases hfg : mergeFields fs gs with
  | none =>
    cases hge : mergeFields gs es with
    | none => simp
    | some is =>
      simp only [Option.none_bind, Option.some_bind]
      cases hfis : mergeFields fs is with
      | none => rfl
      | some R =>
        obtain ⟨hs, hfg', _⟩ := mergeFields_assoc_defined_rev hf hg he IH hge hfis
        rw [hfg] at hfg'
        exact absurd hfg' (by simp)
  | some hs =>
    cases hL : mergeFields hs es with
    | none =>
      cases hge : mergeFields gs es with
      | none => simp [hL]
      | some is =>
        simp only [Option.some_bind]
        rw [hL]
        cases hfis : mergeFields fs is with
        | none => rfl
        | some R =>
          obtain ⟨hs', hfg', hsome⟩ := mergeFields_assoc_defined_rev hf hg he IH hge hfis
          rw [hfg] at hfg'
          obtain rfl := Option.some.inj hfg'
          rw [hL] at hsome
          simp at hsome
    | some L =>
      obtain ⟨is, hge, hsome⟩ := mergeFields_assoc_defined hf hg he IH hfg hL
      obtain ⟨R, hfis⟩ := Option.isSome_iff_exists.mp hsome
      rw [hge]
      simp only [Option.some_bind]
      rw [hL, hfis]
      exact congrArg some (mergeFields_assoc_eq hf hg he IH hfg hL hge hfis)

theorem merge_assoc_any_left {b c : Node} :
    (merge .any b).bind (fun x => merge x c) = (merge b c).bind (fun y => merge .any y) := by
  cases hbc : merge b c <;> simp [merge, hbc]

theorem merge_assoc_any_mid {a c : Node} (hak : a.t ≠ .KEY_INDEXED_ARRAY) :
    (merge a .any).bind (fun x => merge x c) = (merge .any c).bind (fun y => merge a y) := by
  rw [merge_any_right hak]
  simp [merge]

theorem merge_assoc_any_right {a b : Node} (hak : a.t ≠ .KEY_INDEXED_ARRAY)
    (hbk : b.t ≠ .KEY_INDEXED_ARRAY) :
    (merge a b).bind (fun x => merge x .any) = (merge b .any).bind (fun y => merge a y) := by
  rw [merge_any_right hbk, Option.some_bind]
  cases hab : merge a b with
  | none => simp
  | some x =>
    rw [Option.some_bind, merge_any_right (merge_result_ne_kia hak hbk hab)]

theorem merge_assoc_null_left {b c : Node} (hbt : b.t ≠ .ANY) :
    (merge .null b).bind (fun x => merge x c) = (merge b c).bind (fun y => merge .null y) := by
  rw [merge_null_left hbt, Option.some_bind]
  cases hbc : merge b c with
  | none => simp
  | some y =>
    rw [Option.some_bind, merge_null_left (merge_result_ne_any hbt hbc)]

theorem merge_assoc_null_mid {a c : Node} (hat : a.t ≠ .ANY)
    (hak : a.t ≠ .KEY_INDEXED_ARRAY) (hct : c.t ≠ .ANY) :
    (merge a .null).bind (fun x => merge x c) = (merge .null c).bind (fun y => merge a y) := by
  rw [merge_null_right hat hak, merge_null_left hct]
  simp

theorem merge_assoc_null_right {a b : Node} (hat : a.t ≠ .ANY)
    (hak : a.t ≠ .KEY_INDEXED_ARRAY) (hbt : b.t ≠ .ANY)
    (hbk : b.t ≠ .KEY_INDEXED_ARRAY) :
    (merge a b).bind (fun x => merge x .null) = (merge b .null).bind (fun y => merge a y) := by
  rw [merge_null_right hbt hbk, Option.some_bind]
  cases hab : merge a b with
  | none => simp
  | some x =>
    rw [Option.some_bind,
      merge_null_right (merge_result_ne_any hat hab) (merge_result_ne_kia hak hbk hab)]

theorem merge_assoc_ab_ne {a b c : Node}
    (ha1 : a.t ≠ .ANY) (ha2 : a.t ≠ .NULL) (hak : a.t ≠ .KEY_INDEXED_ARRAY)
    (hb1 : b.t ≠ .ANY) (hb2 : b.t ≠ .NULL) (hbk : b.t ≠ .KEY_INDEXED_ARRAY)
    (hc1 : c.t ≠ .ANY) (hc2 : c.t ≠ .NULL)
    (hne : a.t ≠ b.t) :
    (merge a b).bind (fun x => merge x c) = (merge b c).bind (fun y => merge a y) := by
  rw [merge_none_of_t_ne ha1 ha2 hak hb1 hb2 hne, Option.none_bind]
  cases hbc : merge b c with
  | none => simp
  | some d =>
    have hd := merge_result_t_eq hb1 hb2 hbk hc1 hc2 hbc
    rw [Option.some_bind,
      merge_none_of_t_ne ha1 ha2 hak (hd ▸ hb1) (hd ▸ hb2) (hd ▸ hne)]

theorem merge_assoc_bc_ne {a b c : Node}
    (ha1 : a.t ≠ .ANY) (ha2 : a.t ≠ .NULL) (hak : a.t ≠ .KEY_INDEXED_ARRAY)
    (hb1 : b.t ≠ .ANY) (hb2 : b.t ≠ .NULL)
    (hc1 : c.t ≠ .ANY) (hc2 : c.t ≠ .NULL)
    (hab : a.t = b.t) (hne : b.t ≠ c.t) :
    (merge a b).bind (fun x => merge x c) = (merge b c).bind (fun y => merge a y) := by
  rw [merge_none_of_t_ne hb1 hb2 (hab ▸ hak) hc1 hc2 hne, Option.none_bind]
  cases hab' : merge a b with
  | none => simp
  | some d =>
    have hd := merge_result_t_eq ha1 ha2 hak hb1 hb2 hab'
    rw [Option.some_bind,
      merge_none_of_t_ne (hd ▸ ha1) (hd ▸ ha2) (hd ▸ hak) hc1 hc2
        (by rw [hd, hab]; exact hne)]

theorem merge_assoc_array {v w u : Node}
    (h : (merge v w).bind (fun x => merge x u) = (merge w u).bind (fun y => merge v y)) :
    (merge (.array v) (.array w)).bind (fun x => merge x (.array u))
      = (merge (.array w) (.array u)).bind (fun y => merge (.array v) y) := by
  have harr : ∀ x y : Node, merge (.array x) (.array y)
      = (merge x y).map (fun z => .array z) := by
    intro x y
    rw [merge]
    cases merge x y <;> simp
  rw [harr, harr]
  cases hvw : merge v w with
  | none =>
    rw [hvw] at h
    simp only [Option.none_bind] at h
    cases hwu : merge w u with
    | none => simp
    | some d =>
      rw [hwu] at h
      simp only [Option.some_bind] at h
      simp [harr, ← h]
  | some d =>
    rw [hvw] at h
    simp only [Option.some_bind] at h
    cases hwu : merge w u with
    | none =>
      rw [hwu] at h
      simp only [Option.none_bind] at h
      simp [harr, h]
    | some d2 =>
      rw [hwu] at h
      simp only [Option.some_bind] at h
      simp [harr, h]

theorem merge_object_eq (fs gs : List Field) :
    merge (.object fs) (.object gs) = (mergeFields fs gs).map (fun hs => .object hs) := by
  rw [merge]
  cases mergeFields fs gs <;> simp

theorem merge_assoc_object {fs gs es : List Field}
    (hf : FieldsSorted fs) (hg : FieldsSorted gs) (he : FieldsSorted es)
    (IH : ∀ f ∈ fs, ∀ g ∈ gs, ∀ e ∈ es,
      (merge f.2.1 g.2.1).bind (fun x => merge x e.2.1)
        = (merge g.2.1 e.2.1).bind (fun y => merge f.2.1 y)) :
    (merge (.object fs) (.object gs)).bind (fun x => merge x (.object es))
      = (merge (.object gs) (.object es)).bind (fun y => merge (.object fs) y) := by
  have h := mergeFields_assoc_of hf hg he IH
  rw [merge_object_eq, merge_object_eq]
  cases hfg : mergeFields fs gs with
  | none =>
    rw [hfg] at h
    simp only [Option.none_bind] at h
    cases hge : mergeFields gs es with
    | none => simp
    | some is =>
      rw [hge] at h
      simp only [Option.some_bind] at h
      simp [merge_object_eq, ← h]
  | some hs =>
    rw [hfg] at h
    simp only [Option.some_bind] at h
    cases hge : mergeFields gs es with
    | none =>
      rw [hge] at h
      simp only [Option.none_bind] at h
      simp [merge_object_eq, h]
    | some is =>
      rw [hge] at h
      simp only [Option.some_bind] at h
      simp [merge_object_eq, h]

theorem merge_assoc_null_any {a : Node} (hat : a.t ≠ .ANY)
    (hak : a.t ≠ .KEY_INDEXED_ARRAY) :
    (merge a .null).bind (fun x => merge x .any)
      = (merge .null .any).bind (fun y => merge a y) := by
  rw [merge_null_right hat hak]
  simp only [Option.some_bind]
  rw [merge_any_right hak, show merge .null .any = some .null from by simp [merge],
    Option.some_bind, merge_null_right hat hak]

theorem canonical_cons {f : Field} {fs : List Field} :
    CanonicalFields (f :: fs) ↔ Canonical f.2.1 ∧ CanonicalFields fs := by
  obtain ⟨k, n, o, l⟩ := f
  simp [CanonicalFields]

theorem canonicalFields_mem {fs : List Field} (h : CanonicalFields fs) :
    ∀ f ∈ fs, Canonical f.2.1 := by
  induction fs with
  | nil => simp
  | cons f fs ih =>
    intro g hg
    rcases List.mem_cons.mp hg with rfl | hg'
    · exact (canonical_cons.mp h).1
    · exact ih (canonical_cons.mp h).2 g hg'

theorem merge_assoc_aux :
    ∀ (N : Nat) (a b c : Node), sizeOf a + sizeOf b + sizeOf c ≤ N →
    MapFree a → MapFree b → MapFree c →
    Canonical a → Canonical b → Canonical c →
    (merge a b).bind (fun x => merge x c) = (merge b c).bind (fun y => merge a y) := by
  intro N
  induction N using Nat.strong_induction_on with
  | _ N ih =>
    intro a b c hlen fa fb fc ca cb cc
    cases a with
    | keyIndexedArray ks v => exact absurd fa (by simp [MapFree])
    | object fs =>
      cases b with
      | keyIndexedArray ls w => exact absurd fb (by simp [MapFree])
      | object gs =>
        cases c with
        | keyIndexedArray ms u => exact absurd fc (by simp [MapFree])
        | object es =>
          simp only [MapFree] at fa fb fc
          simp only [Canonical] at ca cb cc
          refine merge_assoc_object ca.1 cb.1 cc.1 ?_
          intro f hf g hg e he
          refine ih (sizeOf f.2.1 + sizeOf g.2.1 + sizeOf e.2.1) ?_ f.2.1 g.2.1 e.2.1
            le_rfl (mapFreeFields_mem fa f hf) (mapFreeFields_mem fb g hg)
            (mapFreeFields_mem fc e he) (canonicalFields_mem ca.2 f hf)
            (canonicalFields_mem cb.2 g hg) (canonicalFields_mem cc.2 e he)
          have s1 := sizeOf_field_node hf
          have s2 := sizeOf_field_node hg
          have s3 := sizeOf_field_node he
          simp at hlen
          omega
        | any => exact merge_assoc_any_right (by simp [Node.t]) (by simp [Node.t])
        | null =>
          exact merge_assoc_null_right (by simp [Node.t]) (by simp [Node.t])
            (by simp [Node.t]) (by simp [Node.t])
        | boolean =>
          exact merge_assoc_bc_ne (by simp [Node.t]) (by simp [Node.t]) (by simp [Node.t])
            (by simp [Node.t]) (by simp [Node.t]) (by simp [Node.t]) (by simp [Node.t])
            (by simp [Node.t]) (by simp [Node.t])
        | number g =>
          exact merge_assoc_bc_ne (by simp [Node.t]) (by simp [Node.t]) (by simp [Node.t])
            (by simp [Node.t]) (by simp [Node.t]) (by simp [Node.t]) (by simp [Node.t])
            (by simp [Node.t]) (by simp [Node.t])
        | string d =>
          exact merge_assoc_bc_ne (by simp [Node.t]) (by simp [Node.t]) (by simp [Node.t])
            (by simp [Node.t]) (by simp [Node.t]) (by simp [Node.t]) (by simp [Node.t])
            (by simp [Node.t]) (by simp [Node.t])
        | array w =>
          exact merge_assoc_bc_ne (by simp [Node.t]) (by simp [Node.t]) (by simp [Node.t])
            (by simp [Node.t]) (by simp [Node.t]) (by simp [Node.t]) (by simp [Node.t])
            (by simp [Node.t]) (by simp [Node.t])
      | any => exact merge_assoc_any_mid (by simp [Node.t])
      | null =>
        cases c with
        | any => exact merge_assoc_null_any (by simp [Node.t]) (by simp [Node.t])
        | _ => exact merge_assoc_null_mid (by simp [Node.t]) (by simp [Node.t]) (by simp [Node.t])
      | boolean =>
        cases c with
        | keyIndexedArray ms u => exact absurd fc (by simp [MapFree])
        | any => exact merge_assoc_any_right (by simp [Node.t]) (by simp [Node.t])
        | null =>
          exact merge_assoc_null_right (by simp [Node.t]) (by simp [Node.t])
            (by simp [Node.t]) (by simp [Node.t])
        | _ =>
          exact merge_assoc_ab_ne (by simp [Node.t]) (by simp [Node.t]) (by simp [Node.t])
            (by simp [Node.t]) (by simp [Node.t]) (by simp [Node.t]) (by simp [Node.t])
            (by simp [Node.t]) (by simp [Node.t])
      | number g =>
        cases c with
        | keyIndexedArray ms u => exact absurd fc (by simp [MapFree])
        | any => exact merge_assoc_any_right (by simp [Node.t]) (by simp [Node.t])
        | null =>
          exact merge_assoc_null_right (by simp [Node.t]) (by simp [Node.t])
            (by simp [Node.t]) (by simp [Node.t])
        | _ =>
          exact merge_assoc_ab_ne (by simp [Node.t]) (by simp [Node.t]) (by simp [Node.t])
            (by simp [Node.t]) (by simp [Node.t]) (by simp [Node.t]) (by simp [Node.t])
            (by simp [Node.t]) (by simp [Node.t])
      | string d =>
        cases c with
        | keyIndexedArray ms u => exact absurd fc (by simp [MapFree])
        | any => exact merge_assoc_any_right (by simp [Node.t]) (by simp [Node.t])
        | null =>
          exact merge_assoc_null_right (by simp [Node.t]) (by simp [Node.t])
            (by simp [Node.t]) (by simp [Node.t])
        | _ =>
          exact merge_assoc_ab_ne (by simp [Node.t]) (by simp [Node.t]) (by simp [Node.t])
            (by simp [Node.t]) (by simp [Node.t]) (by simp [Node.t]) (by simp [Node.t])
            (by simp [Node.t]) (by simp [Node.t])
      | array w =>
        cases c with
        | keyIndexedArray ms u => exact absurd fc (by simp [MapFree])
        | any => exact merge_assoc_any_right (by simp [Node.t]) (by simp [Node.t])
        | null =>
          exact merge_assoc_null_right (by simp [Node.t]) (by simp [Node.t])
            (by simp [Node.t]) (by simp [Node.t])
        | _ =>
          exact merge_assoc_ab_ne (by simp [Node.t]) (by simp [Node.t]) (by simp [Node.t])
            (by simp [Node.t]) (by simp [Node.t]) (by simp [Node.t]) (by simp [Node.t])
            (by simp [Node.t]) (by simp [Node.t])
    | any => exact merge_assoc_any_left
    | null =>
      cases b with
      | any => exact merge_assoc_any_mid (by simp [Node.t])
      | _ => exact merge_assoc_null_left (by simp [Node.t])
    | boolean =>
      cases b with
      | keyIndexedArray ls w => exact absurd fb (by simp [MapFree])
      | any => exact merge_assoc_any_mid (by simp [Node.t])
      | null =>
        cases c with
        | any => exact merge_assoc_null_any (by simp [Node.t]) (by simp [Node.t])
        | _ => exact merge_assoc_null_mid (by simp [Node.t]) (by simp [Node.t]) (by simp [Node.t])
      | boolean =>
        cases c with
        | keyIndexedArray ms u => exact absurd fc (by simp [MapFree])
        | any => exact merge_assoc_any_right (by simp [Node.t]) (by simp [Node.t])
        | null =>
          exact merge_assoc_null_right (by simp [Node.t]) (by simp [Node.t])
            (by simp [Node.t]) (by simp [Node.t])
        | boolean => simp [merge]
        | _ =>
          exact merge_assoc_bc_ne (by simp [Node.t]) (by simp [Node.t]) (by simp [Node.t])
            (by simp [Node.t]) (by simp [Node.t]) (by simp [Node.t]) (by simp [Node.t])
            (by simp [Node.t]) (by simp [Node.t])
      | _ =>
        cases c with
        | keyIndexedArray ms u => exact absurd fc (by simp [MapFree])
        | any => exact merge_assoc_any_right (by simp [Node.t]) (by simp [Node.t])
        | null =>
          exact merge_assoc_null_right (by simp [Node.t]) (by simp [Node.t])
            (by simp [Node.t]) (by simp [Node.t])
        | _ =>
          exact merge_assoc_ab_ne (by simp [Node.t]) (by simp [Node.t]) (by simp [Node.t])
            (by simp [Node.t]) (by simp [Node.t]) (by simp [Node.t]) (by simp [Node.t])
            (by simp [Node.t]) (by simp [Node.t])
    | number f =>
      cases b with
      | keyIndexedArray ls w => exact absurd fb (by simp [MapFree])
      | any => exact merge_assoc_any_mid (by simp [Node.t])
      | null =>
        cases c with
        | any => exact merge_assoc_null_any (by simp [Node.t]) (by simp [Node.t])
        | _ => exact merge_assoc_null_mid (by simp [Node.t]) (by simp [Node.t]) (by simp [Node.t])
      | number g =>
        cases c with
        | keyIndexedArray ms u => exact absurd fc (by simp [MapFree])
        | any => exact merge_assoc_any_right (by simp [Node.t]) (by simp [Node.t])
        | null =>
          exact merge_assoc_null_right (by simp [Node.t]) (by simp [Node.t])
            (by simp [Node.t]) (by simp [Node.t])
        | number u => simp [merge, Bool.or_assoc]
        | _ =>
          exact merge_assoc_bc_ne (by simp [Node.t]) (by simp [Node.t]) (by simp [Node.t])
            (by simp [Node.t]) (by simp [Node.t]) (by simp [Node.t]) (by simp [Node.t])
            (by simp [Node.t]) (by simp [Node.t])
      | _ =>
        cases c with
        | keyIndexedArray ms u => exact absurd fc (by simp [MapFree])
        | any => exact merge_assoc_any_right (by simp [Node.t]) (by simp [Node.t])
        | null =>
          exact merge_assoc_null_right (by simp [Node.t]) (by simp [Node.t])
            (by simp [Node.t]) (by simp [Node.t])
        | _ =>
          exact merge_assoc_ab_ne (by simp [Node.t]) (by simp [Node.t]) (by simp [Node.t])
            (by simp [Node.t]) (by simp [Node.t]) (by simp [Node.t]) (by simp [Node.t])
            (by simp [Node.t]) (by simp [Node.t])
    | string cm =>
      cases b with
      | keyIndexedArray ls w => exact absurd fb (by simp [MapFree])
      | any => exact merge_assoc_any_mid (by simp [Node.t])
      | null =>
        cases c with
        | any => exact merge_assoc_null_any (by simp [Node.t]) (by simp [Node.t])
        | _ => exact merge_assoc_null_mid (by simp [Node.t]) (by simp [Node.t]) (by simp [Node.t])
      | string d =>
        cases c with
        | keyIndexedArray ms u => exact absurd fc (by simp [MapFree])
        | any => exact merge_assoc_any_right (by simp [Node.t]) (by simp [Node.t])
        | null =>
          exact merge_assoc_null_right (by simp [Node.t]) (by simp [Node.t])
            (by simp [Node.t]) (by simp [Node.t])
        | string e => simp [merge, add_assoc]
        | _ =>
          exact merge_assoc_bc_ne (by simp [Node.t]) (by simp [Node.t]) (by simp [Node.t])
            (by simp [Node.t]) (by simp [Node.t]) (by simp [Node.t]) (by simp [Node.t])
            (by simp [Node.t]) (by simp [Node.t])
      | _ =>
        cases c with
        | keyIndexedArray ms u => exact absurd fc (by simp [MapFree])
        | any => exact merge_assoc_any_right (by simp [Node.t]) (by simp [Node.t])
        | null =>
          exact merge_assoc_null_right (by simp [Node.t]) (by simp [Node.t])
            (by simp [Node.t]) (by simp [Node.t])
        | _ =>
          exact merge_assoc_ab_ne (by simp [Node.t]) (by simp [Node.t]) (by simp [Node.t])
            (by simp [Node.t]) (by simp [Node.t]) (by simp [Node.t]) (by simp [Node.t])
            (by simp [Node.t]) (by simp [Node.t])
    | array v =>
      cases b with
      | keyIndexedArray ls w => exact absurd fb (by simp [MapFree])
      | any => exact merge_assoc_any_mid (by simp [Node.t])
      | null =>
        cases c with
        | any => exact merge_assoc_null_any (by simp [Node.t]) (by simp [Node.t])
        | _ => exact merge_assoc_null_mid (by simp [Node.t]) (by simp [Node.t]) (by simp [Node.t])
      | array w =>
        cases c with
        | keyIndexedArray ms u => exact absurd fc (by simp [MapFree])
        | any => exact merge_assoc_any_right (by simp [Node.t]) (by simp [Node.t])
        | null =>
          exact merge_assoc_null_right (by simp [Node.t]) (by simp [Node.t])
            (by simp [Node.t]) (by simp [Node.t])
        | array u =>
          refine merge_assoc_array (ih (sizeOf v + sizeOf w + sizeOf u) ?_ v w u le_rfl
            (by simpa [MapFree] using fa) (by simpa [MapFree] using fb)
            (by simpa [MapFree] using fc) (by simpa [Canonical] using ca)
            (by simpa [Canonical] using cb) (by simpa [Canonical] using cc))
          simp at hlen
          omega
        | _ =>
          exact merge_assoc_bc_ne (by simp [Node.t]) (by simp [Node.t]) (by simp [Node.t])
            (by simp [Node.t]) (by simp [Node.t]) (by simp [Node.t]) (by simp [Node.t])
            (by simp [Node.t]) (by simp [Node.t])
      | _ =>
        cases c with
        | keyIndexedArray ms u => exact absurd fc (by simp [MapFree])
        | any => exact merge_assoc_any_right (by simp [Node.t]) (by simp [Node.t])
        | null =>
          exact merge_assoc_null_right (by simp [Node.t]) (by simp [Node.t])
            (by simp [Node.t]) (by simp [Node.t])
        | _ =>
          exact merge_assoc_ab_ne (by simp [Node.t]) (by simp [Node.t]) (by simp [Node.t])
            (by simp [Node.t]) (by simp [Node.t]) (by simp [Node.t]) (by simp [Node.t])
            (by simp [Node.t]) (by simp [Node.t])

theorem merge_assoc {a b c : Node}
    (fa : MapFree a) (fb : MapFree b) (fc : MapFree c)
    (ca : Canonical a) (cb : Canonical b) (cc : Canonical c) :
    (merge a b).bind (fun x => merge x c) = (merge b c).bind (fun y => merge a y) :=
  merge_assoc_aux (sizeOf a + sizeOf b + sizeOf c) a b c le_rfl fa fb fc ca cb cc

/-- C1 counterexample: the array `[1, "a"]` does fail with `IncompatibleNodes`,
but its location is the empty path, not one containing `"ARRAY_ELEMENT"`; and
`{"a": {"b": [true, 1]}}` fails at location `["a", "b"]`, not
`["a", "b", "ARRAY_ELEMENT"]`: the merge failure inside the array case raises a
fresh `IncompatibleNodesError` that is never tagged with `"ARRAY_ELEMENT"`. -/
theorem infer_location_counterexample :
    infer (.arr [.num false, .str "a"])
      = .error (.incompatibleNodes [] [.number false, .string {"a"}]) ∧
    "ARRAY_ELEMENT" ∉ ([] : List String) ∧
    infer (.obj [("a", .obj [("b", .arr [.bool true, .num false])])])
      = .error (.incompatibleNodes ["a", "b"] [.boolean, .number false]) ∧
    (["a", "b"] : List String) ≠ ["a", "b", "ARRAY_ELEMENT"] := by
  refine ⟨?_, by decide, ?_, by decide⟩
  · simp [infer, inferList, sumNodes, merge]
  · simp +decide [infer, inferList, inferFields, sumNodes, merge, isNullNode,
      InferError.under]

/-- C1 amended: a failed merge of sibling array elements raises
`IncompatibleNodes` with an empty location at that array, so `infer([1, "a"])`
fails at location `[]` and `infer({"a": {"b": [true, 1]}})` at `["a", "b"]`;
the `"ARRAY_ELEMENT"` segment is prepended only when inferring an element
itself fails, as in `infer([[1, "a"]])`, which fails at `["ARRAY_ELEMENT"]`. -/
theorem infer_location_amended :
    infer (.arr [.num false, .str "a"])
      = .error (.incompatibleNodes [] [.number false, .string {"a"}]) ∧
    infer (.obj [("a", .obj [("b", .arr [.bool true, .num false])])])
      = .error (.incompatibleNodes ["a", "b"] [.boolean, .number false]) ∧
    infer (.arr [.arr [.num false, .str "a"]])
      = .error (.incompatibleNodes ["ARRAY_ELEMENT"] [.number false, .string {"a"}]) := by
  refine ⟨?_, ?_, ?_⟩
  · simp [infer, inferList, sumNodes, merge]
  · simp +decide [infer, inferList, inferFields, sumNodes, merge, isNullNode,
      InferError.under]
  · simp [infer, inferList, sumNodes, merge, InferError.under]

/-- C2 (code behaviour at the failing input): merging two Map nodes whose
element nodes cannot merge — `{"a": 1}` as a Map of Number against
`{"b": "s"}` as a Map of String — fails outright, although the Record-form
merge promised by the claim (and by the source's own fallback comment) would
succeed. -/
theorem kia_merge_fallback_unreachable :
    merge (.keyIndexedArray {"a"} (.number false)) (.keyIndexedArray {"b"} (.string {"s"}))
      = none ∧
    merge (toObjectNode {"a"} (.number false)) (toObjectNode {"b"} (.string {"s"}))
      = some (.object [("a", .number false, true, false), ("b", .string {"s"}, true, false)]) := by
  constructor
  · simp [merge]
  · simp +decide [merge, mergeFields, toObjectNode, toObjectFields, isNullNode]

/-- C4 counterexample: merging a Map node with Null on the right does not keep
the Map's shape — it yields the Map's Record conversion, a node of a different
kind. -/
theorem null_merge_counterexample :
    merge (.keyIndexedArray {"k"} (.number false)) .null
      = some (.object [("k", .number false, false, false)]) ∧
    (Node.object [("k", .number false, false, false)]).t
      ≠ (Node.keyIndexedArray {"k"} (.number false)).t := by
  constructor
  · simp +decide [merge, toObjectFields, isNullNode]
  · decide

/-- C4 amended: `merge(Null, x) = x` for every non-Any `x`, and
`merge(x, Null) = x` for every non-Any `x` that is not a Map; for a Map,
`merge(Map, Null)` instead yields the Map's Record conversion
(`to_object_node`); `merge(Null, Null) = Null`. -/
theorem null_merge_amended :
    (∀ x : Node, x.t ≠ .ANY → merge .null x = some x) ∧
    (∀ x : Node, x.t ≠ .ANY → x.t ≠ .KEY_INDEXED_ARRAY → merge x .null = some x) ∧
    (∀ (ks : Finset String) (v : Node),
      merge (.keyIndexedArray ks v) .null = some (toObjectNode ks v)) ∧
    merge .null .null = some .null := by
  refine ⟨?_, ?_, ?_, ?_⟩
  · intro x h
    cases x <;> simp [Node.t] at h ⊢ <;> simp [merge]
  · intro x h1 h2
    cases x <;> simp [Node.t] at h1 h2 ⊢ <;> simp [merge]
  · intro ks v
    simp [merge, toObjectNode]
  · simp [merge]

/-- C5 counterexample: `Any` is not a right identity on a Map node: merging a
Map with `Any` yields the Map's Record conversion, a node of a different
kind. -/
theorem any_identity_counterexample :
    merge (.keyIndexedArray {"k"} (.number false)) .any
      = some (.object [("k", .number false, false, false)]) ∧
    (Node.object [("k", .number false, false, false)]).t
      ≠ (Node.keyIndexedArray {"k"} (.number false)).t := by
  constructor
  · simp +decide [merge, toObjectFields, isNullNode]
  · decide

/-- C5 amended: `merge(Any, x) = x` for every node `x`, and
`merge(x, Any) = x` for every `x` that is not a Map; for a Map,
`merge(Map, Any)` yields the Map's Record conversion (`to_object_node`). -/
theorem any_identity_amended :
    (∀ x : Node, merge .any x = some x) ∧
    (∀ x : Node, x.t ≠ .KEY_INDEXED_ARRAY → merge x .any = some x) ∧
    (∀ (ks : Finset String) (v : Node),
      merge (.keyIndexedArray ks v) .any = some (toObjectNode ks v)) := by
  refine ⟨?_, ?_, ?_⟩
  · intro x
    simp [merge]
  · intro x h
    cases x <;> simp [Node.t] at h ⊢ <;> simp [merge]
  · intro ks v
    simp [merge, toObjectNode]

/-- C7: object inference returns the Map (KeyIndexedArray) node exactly when
the fold of the field value-nodes (seeded with `Any`) succeeds, and the Record
(Object) node when it fails; concretely `{"x": 1, "y": 2}` yields a Map with
keys x, y and a Number element, while `{"x": 1, "y": "s"}` yields a Record. -/
theorem object_inference_map_promotion :
    (∀ (kvs : List (String × Json)) (fields : List Field) (v : Node),
      inferFields kvs = .ok fields →
      sumNodes .any (fields.map (fun f => f.2.1)) = some v →
      infer (.obj kvs) = .ok (.keyIndexedArray ((fields.map (fun f => f.1)).toFinset) v)) ∧
    (∀ (kvs : List (String × Json)) (fields : List Field),
      inferFields kvs = .ok fields →
      sumNodes .any (fields.map (fun f => f.2.1)) = none →
      infer (.obj kvs) = .ok (.object fields)) ∧
    infer (.obj [("x", .num false), ("y", .num false)])
      = .ok (.keyIndexedArray {"x", "y"} (.number false)) ∧
    infer (.obj [("x", .num false), ("y", .str "s")])
      = .ok (.object [("x", .number false, false, false), ("y", .string {"s"}, false, false)]) := by
  refine ⟨?_, ?_, ?_, ?_⟩
  · intro kvs fields v h1 h2
    simp [infer, h1, h2]
  · intro kvs fields h1 h2
    simp [infer, h1, h2]
  · simp +decide [infer, inferFields, sumNodes, merge, isNullNode]
  · simp +decide [infer, inferFields, sumNodes, merge, isNullNode]

/-- C8 (code behaviour): `JsonPrimitiveType.tell` returns `FALSE` for both
truth values — the `t = cls.FALSE` line is not under an `else`, so it
overwrites the `TRUE` just assigned for a true input. -/
theorem tell_boolean_code_behavior :
    tell (.bool true) = .FALSE ∧ tell (.bool false) = .FALSE ∧
    (JsonPrimitiveType.FALSE ≠ .TRUE) :=
  ⟨rfl, rfl, by decide⟩

/-- C9: `JsinError.under` builds a new error whose location is the parent
segment prepended to the old location, with the payload unchanged (the original
value is untouched); folding `under` along the segments of an unwinding call
chain (innermost caller first) therefore produces the reversed segment list —
the root-to-leaf path — in front of the original location. -/
theorem jsinError_under_prepends :
    (∀ (α : Type) (e : JsinError α) (s : String),
      (e.under s).loc = s :: e.loc ∧ (e.under s).args = e.args) ∧
    (∀ (α : Type) (e : JsinError α) (segs : List String),
      (segs.foldl JsinError.under e).loc = segs.reverse ++ e.loc) := by
  constructor
  · intro α e s
    exact ⟨rfl, rfl⟩
  · intro α e segs
    induction segs generalizing e with
    | nil => simp
    | cons s segs ih => simp [JsinError.under, ih]

/-- C10: inferring the empty JSON object succeeds and yields a Map
(KeyIndexedArray) node with an empty key set and an `Any` element — a node of
kind `KEY_INDEXED_ARRAY`, not `OBJECT`. -/
theorem infer_empty_object :
    infer (.obj []) = .ok (.keyIndexedArray ∅ .any) ∧
    (Node.keyIndexedArray ∅ .any).t = .KEY_INDEXED_ARRAY ∧
    (Node.keyIndexedArray ∅ .any).t ≠ .OBJECT := by
  refine ⟨?_, rfl, by decide⟩
  simp [infer, inferFields, sumNodes]


/-- C3 counterexample: two nodes of the same kind (both Maps) whose merge
succeeds in one operand order and fails in the other — reducing the
two-element list `[a, b]` by pairwise merge is therefore order-dependent,
against the claim.  `a` is a Map whose element is an (empty) Map, `b` a Map
whose element is an (empty) Record: merging the elements takes the
Map-to-Record fallback in one order and raises in the other. -/
theorem merge_order_dependent_counterexample :
    merge (.keyIndexedArray ∅ (.keyIndexedArray ∅ .any)) (.keyIndexedArray ∅ (.object []))
      = some (.keyIndexedArray ∅ (.object [])) ∧
    merge (.keyIndexedArray ∅ (.object [])) (.keyIndexedArray ∅ (.keyIndexedArray ∅ .any))
      = none ∧
    (Node.keyIndexedArray ∅ (.keyIndexedArray ∅ .any)).t
      = (Node.keyIndexedArray ∅ (.object [])).t := by
  refine ⟨?_, ?_, rfl⟩
  · simp +decide [merge, mergeFields, toObjectFields]
  · simp [merge]

/-- C3 amended: on nodes containing no Map (KeyIndexedArray) node — with
Record field lists in canonical dict form — merge is commutative and, as a
partial operator (equality of `Option` values, definedness included),
associative; reducing a list of such nodes by repeated pairwise merge in any
grouping and order therefore yields equal results.  With Map nodes present
the property fails (see the counterexample): the Map→Record fallback makes
merge succeed in one operand order and raise in the other. -/
theorem merge_comm_assoc_mapFree :
    (∀ a b : Node, MapFree a → MapFree b → merge a b = merge b a) ∧
    (∀ a b c : Node, MapFree a → MapFree b → MapFree c →
      Canonical a → Canonical b → Canonical c →
      (merge a b).bind (fun x => merge x c) = (merge b c).bind (fun y => merge a y)) :=
  ⟨fun _ _ ha hb => merge_comm ha hb,
   fun _ _ _ fa fb fc ca cb cc => merge_assoc fa fb fc ca cb cc⟩

/-- Witness for the amended C3 at concrete inputs: commutativity of the merge
of a Number and a String node (both merges raise), and associativity of three
Number-node merges. -/
theorem merge_comm_assoc_mapFree_witness :
    (merge (.number true) (.string {"s"}) = merge (.string {"s"}) (.number true)) ∧
    ((merge (.number true) (.number false)).bind (fun x => merge x (.number false))
      = (merge (.number false) (.number false)).bind (fun y => merge (.number true) y)) := by
  constructor
  · exact merge_comm_assoc_mapFree.1 _ _ (by simp [MapFree]) (by simp [MapFree])
  · exact merge_comm_assoc_mapFree.2 _ _ _ (by simp [MapFree]) (by simp [MapFree])
      (by simp [MapFree]) (by simp [Canonical]) (by simp [Canonical]) (by simp [Canonical])

/-- C6: merging two Record nodes (canonical sorted field lists) yields a Record
over the union of their field names: at every key, a field present in both
sides holds the merge of the two field nodes with `optional` and `nullable`
each the OR of the two sides; a field present in only one side is carried with
`optional = true` and its `nullable` unchanged; a field in neither is absent
(`RecordMergeSpec`). -/
theorem record_merge_field_union (fs gs hs : List Field)
    (hf : FieldsSorted fs) (hg : FieldsSorted gs)
    (h : merge (.object fs) (.object gs) = some (.object hs)) (k : String) :
    RecordMergeSpec fs gs hs k := by
  have hm : mergeFields fs gs = some hs := by
    rw [merge_object_eq] at h
    cases hmf : mergeFields fs gs with
    | none => rw [hmf] at h; simp at h
    | some hs' =>
      rw [hmf] at h
      simp at h
      subst h
      rfl
  exact mergeFields_lookup hf hg hm k

/-- Witness for C6 at a concrete input: merging a Record with field `"a"`
(required) into an empty Record yields a Record whose `"a"` field is marked
`optional = true`, matching the spec at key `"a"`. -/
theorem record_merge_field_union_witness :
    RecordMergeSpec [("a", .number false, false, false)] []
      [("a", .number false, true, false)] "a" := by
  refine record_merge_field_union _ _ _ ?_ ?_ ?_ "a"
  · exact List.pairwise_singleton _ _
  · exact List.Pairwise.nil
  · simp [merge, mergeFields]


end Jsin
